import Mathlib

/-!
# Section name projection and lookup of the ELF generator

A shallow embedding of `lib/elfgen/cbits/elf64/internal_fix.c`: the two C functions
`get_section_name` and `find_section_index_by_name`, together with the part of the
C library (`strcmp`) and of the C abstract machine (null pointers, array bounds,
32-bit `int` / `unsigned int`) that their behaviour depends on.

Conventions of the embedding
* a `char const *` is an `Option CString`: `none` is `NULL`, `some s` points at the
  bytes `s`, which are read up to the first `0` byte or, when there is none, up to
  the end of the list (where the terminating NUL sits);
* an `elf_section_header const *` is an `Option elf_section_header`;
* the array `sections` is a list of such pointers; reading past its end is a fault;
* `int` is a mathematical integer kept within `INT_MIN .. INT_MAX`, stepping outside
  is a fault; `unsigned int` is a natural number, conversion to it is `% 2^32`.
-/

namespace Elf64

/-- Bytes of a C string, as natural numbers. -/
abbrev CString := List Nat

/-- No byte of the list is the NUL byte, so the C string at the pointer is the whole
list. (A list such as `[120, 0, 121]` holds bytes past the end of the string "x".) -/
def nul_free (s : CString) : Prop := ∀ b ∈ s, b ≠ 0

instance (s : CString) : Decidable (nul_free s) := by
  unfold nul_free; infer_instance

/-- The C library's `strcmp` (ISO C 7.24.4.2): the two strings are compared byte by
byte, up to and including the terminating NUL; the result is zero when no byte
differs, and otherwise the difference of the first two bytes that differ. The end of
a list stands for the terminating NUL byte. -/
def strcmp : CString → CString → Int
  | [], [] => 0
  | [], b :: _ => 0 - (b : Int)
  | a :: _, [] => (a : Int) - 0
  | a :: s1, b :: s2 =>
    if a = b then (if a = 0 then 0 else strcmp s1 s2) else (a : Int) - (b : Int)

/-- Modelled from the spec: the enumeration of section kinds, declared in
`elf64/internal_fix.h`, which is not among the sources. The spec names the six kinds
Null, Progbits, Rela, Nobits, Symtab, Strtab; the source switches over `S_NULL`,
`S_PROGBITS`, `S_RELA`, `S_NOBITS`, `S_SYMTAB`, `S_STRTAB`. A C enumeration object can
hold a value that is none of its enumerators: that is `other raw`. -/
inductive section_type where
  | S_NULL
  | S_PROGBITS
  | S_RELA
  | S_NOBITS
  | S_SYMTAB
  | S_STRTAB
  | other (raw : Nat)
  deriving DecidableEq

/-- Modelled from the spec: the payload of one section kind, declared in
`elf64/internal_fix.h`, which is not among the sources. Only the field the source
reads, `section_name`, is kept. -/
structure section_payload where
  section_name : Option CString
  deriving DecidableEq

/-- Modelled from the spec: the member `data` of a section header, with one payload
per non-Null kind, as the source accesses them (`data.s_progbits`, `data.s_rela`,
`data.s_nobits`, `data.s_symtab`, `data.s_strtab`). The payloads are independent
fields here, so that reading the payload of another kind is observable. -/
structure section_data where
  s_progbits : section_payload
  s_rela : section_payload
  s_nobits : section_payload
  s_symtab : section_payload
  s_strtab : section_payload
  deriving DecidableEq

/-- Modelled from the spec: `elf_section_header` of `elf64/internal_fix.h`, a type tag
and the payloads. -/
structure elf_section_header where
  type : section_type
  data : section_data
  deriving DecidableEq

/-- The function `get_section_name`: `name` starts as `NULL`, and the `switch` over
`section->type`, which has no `default`, assigns it in the six cases. -/
def get_section_name (sect : elf_section_header) : Option CString :=
  match sect.type with
  | .S_NULL => some []
  | .S_PROGBITS => sect.data.s_progbits.section_name
  | .S_RELA => sect.data.s_rela.section_name
  | .S_NOBITS => sect.data.s_nobits.section_name
  | .S_SYMTAB => sect.data.s_symtab.section_name
  | .S_STRTAB => sect.data.s_strtab.section_name
  | .other _ => none

/-- What stops an execution of the C code short of its `return`. -/
inductive Fault where
  /-- Read of `sections[i]` outside the array. -/
  | out_of_bounds
  /-- The entry `sections[i]` is `NULL` and `section->type` dereferences it. -/
  | null_section
  /-- The call `strcmp(section_name, name)` gets a `NULL` argument. -/
  | null_string
  /-- The increment `i++` leaves the range of `int`. -/
  | signed_overflow
  /-- The model ran out of fuel: no C behaviour, it marks a loop that is still running. -/
  | out_of_fuel
  deriving DecidableEq

instance {α : Type} [DecidableEq α] : DecidableEq (Except Fault α) := fun a b =>
  match a, b with
  | .ok x, .ok y =>
    if h : x = y then isTrue (by rw [h]) else isFalse (fun e => h (by cases e; rfl))
  | .error x, .error y =>
    if h : x = y then isTrue (by rw [h]) else isFalse (fun e => h (by cases e; rfl))
  | .ok _, .error _ => isFalse (fun e => by cases e)
  | .error _, .ok _ => isFalse (fun e => by cases e)

/-- Largest value of a 32-bit `int`. -/
def INT_MAX : Int := 2147483647

/-- Number of values of a 32-bit `unsigned int`. -/
def UINT_RANGE : Int := 4294967296

/-- The two local variables of `find_section_index_by_name`. -/
structure LoopState where
  index : Int
  i : Int
  deriving DecidableEq

/-- The loop condition `index == -1 && i < size`; `size` is unsigned, so `i` is
converted to `unsigned int` for the comparison. -/
def loop_cond (size : Nat) (st : LoopState) : Bool :=
  st.index == -1 && decide ((st.i % UINT_RANGE).toNat < size)

/-- The loop body: read `sections[i]`, project its name, compare it with `name`,
record `i` on equality, increment `i`. -/
def loop_body (sections : List (Option elf_section_header)) (name : Option CString)
    (st : LoopState) : Except Fault LoopState :=
  if st.i < 0 then .error .out_of_bounds
  else
    match sections[st.i.toNat]? with
    | none => .error .out_of_bounds
    | some none => .error .null_section
    | some (some sect) =>
      match get_section_name sect, name with
      | some section_name, some n =>
        let index := if strcmp section_name n = 0 then st.i else st.index
        if st.i + 1 ≤ INT_MAX then .ok { index := index, i := st.i + 1 }
        else .error .signed_overflow
      | _, _ => .error .null_string

/-- The `while` loop, run for at most `fuel` evaluations of its condition; the result
is the state in which the condition is false. -/
def while_loop (sections : List (Option elf_section_header)) (size : Nat)
    (name : Option CString) : Nat → LoopState → Except Fault LoopState
  | 0, _ => .error .out_of_fuel
  | fuel + 1, st =>
    if loop_cond size st then
      match loop_body sections name st with
      | .ok st1 => while_loop sections size name fuel st1
      | .error f => .error f
    else .ok st

/-- The function `find_section_index_by_name`: `index = -1`, `i = 0`, the loop, and
`return index`. Each iteration increments `i` or faults, so the condition is evaluated
at most `size + 1` times: that much fuel is given, and `Fault.out_of_fuel` would show
a loop that needs more. -/
def find_section_index_by_name (sections : List (Option elf_section_header)) (size : Nat)
    (name : Option CString) : Except Fault Int :=
  match while_loop sections size name (size + 1) { index := -1, i := 0 } with
  | .ok st => .ok st.index
  | .error f => .error f

/-! ## Vocabulary of the statements -/

/-- The name projected from entry `j` of a table: `get_section_name(sections[j])`,
`none` when there is no such entry or no name. -/
def name_at (sections : List (Option elf_section_header)) (j : Nat) : Option CString :=
  match sections[j]? with
  | some (some sect) => get_section_name sect
  | _ => none

/-- The stored name of a header of a declared kind is non-null; a header of kind
`S_NULL` stores none. A tag outside the six declared kinds is not a declared header. -/
def declared_header (sect : elf_section_header) : Prop :=
  match sect.type with
  | .S_NULL => True
  | .S_PROGBITS => sect.data.s_progbits.section_name ≠ none
  | .S_RELA => sect.data.s_rela.section_name ≠ none
  | .S_NOBITS => sect.data.s_nobits.section_name ≠ none
  | .S_SYMTAB => sect.data.s_symtab.section_name ≠ none
  | .S_STRTAB => sect.data.s_strtab.section_name ≠ none
  | .other _ => False

/-- A header of a declared kind whose name is a C string: non-null, and with no NUL
byte before its end. -/
def valid_header (sect : elf_section_header) : Prop :=
  declared_header sect ∧ ∀ s, get_section_name sect = some s → nul_free s

/-- Every slot of the table references a valid header. -/
def valid_table (sections : List (Option elf_section_header)) : Prop :=
  ∀ e ∈ sections, ∃ sect, e = some sect ∧ valid_header sect

/-! ## Sample headers and tables -/

/-- A payload with no name. -/
def no_payload : section_payload := { section_name := none }

/-- The payloads of a header that stores no name at all. -/
def no_data : section_data :=
  { s_progbits := no_payload, s_rela := no_payload, s_nobits := no_payload,
    s_symtab := no_payload, s_strtab := no_payload }

/-- The header `Null`. -/
def Null : elf_section_header := { type := .S_NULL, data := no_data }

/-- The header `Progbits(name)`. -/
def Progbits (name : CString) : elf_section_header :=
  { type := .S_PROGBITS, data := { no_data with s_progbits := { section_name := some name } } }

/-- The header `Strtab(name)`. -/
def Strtab (name : CString) : elf_section_header :=
  { type := .S_STRTAB, data := { no_data with s_strtab := { section_name := some name } } }

/-- The header `Symtab(name)`. -/
def Symtab (name : CString) : elf_section_header :=
  { type := .S_SYMTAB, data := { no_data with s_symtab := { section_name := some name } } }

/-- The bytes of "x". -/
def str_x : CString := [120]

/-- The bytes of "shstrtab". -/
def str_shstrtab : CString := [115, 104, 115, 116, 114, 116, 97, 98]

/-- The bytes of "symtab". -/
def str_symtab : CString := [115, 121, 109, 116, 97, 98]

/-- The bytes of "missing". -/
def str_missing : CString := [109, 105, 115, 115, 105, 110, 103]

/-- The table `[Progbits("x"), Progbits("x")]`. -/
def table_dup : List (Option elf_section_header) :=
  [some (Progbits str_x), some (Progbits str_x)]

/-- The table `[Null, Strtab("shstrtab"), Symtab("symtab")]`. -/
def table_scenario : List (Option elf_section_header) :=
  [some Null, some (Strtab str_shstrtab), some (Symtab str_symtab)]

/-- What the loop leaves behind when started at `i` with nothing found yet. -/
def scan_result (sections : List (Option elf_section_header)) (n : CString) (i : Nat)
    (st : LoopState) : Prop :=
  (st.index = -1 ∧ st.i = (sections.length : Int) ∧
      ∀ j, i ≤ j → j < sections.length → name_at sections j ≠ some n) ∨
  (∃ k : Nat, i ≤ k ∧ k < sections.length ∧ st.index = (k : Int) ∧ st.i = (k : Int) + 1 ∧
      name_at sections k = some n ∧ ∀ j, i ≤ j → j < k → name_at sections j ≠ some n)

/-- Payloads that hold a different name for each kind. -/
def data_five : section_data :=
  { s_progbits := { section_name := some [112] },
    s_rela := { section_name := some [114] },
    s_nobits := { section_name := some [110] },
    s_symtab := { section_name := some [115] },
    s_strtab := { section_name := some [116] } }

/-- Every slot of the table references a header of a declared kind with a non-null
stored name. -/
def declared_table (sections : List (Option elf_section_header)) : Prop :=
  ∀ e ∈ sections, ∃ sect, e = some sect ∧ declared_header sect

/-- The table `[Progbits("x"), Null, Null]`. -/
def table_null_second : List (Option elf_section_header) :=
  [some (Progbits str_x), some Null, some Null]

/-- The bytes of "sym", a strict prefix of "symtab". -/
def str_sym : CString := [115, 121, 109]

/-- The bytes of "SYMTAB", which differs from "symtab" in letter case only. -/
def str_SYMTAB : CString := [83, 89, 77, 84, 65, 66]

/-- A value that `find_section_index_by_name` may return. -/
def result_in_range (sections : List (Option elf_section_header)) (size : Nat)
    (name : Option CString) (r : Int) : Prop :=
  r = -1 ∨ (0 ≤ r ∧ r < (size : Int) ∧
    ∃ sn n, name_at sections r.toNat = some sn ∧ name = some n ∧ strcmp sn n = 0)

/-- The number of times the body of the `while` loop runs: the loop of `while_loop`,
counting one for each iteration and nothing for the test that ends it. -/
def loop_iterations (sections : List (Option elf_section_header)) (size : Nat)
    (name : Option CString) : Nat → LoopState → Except Fault Nat
  | 0, _ => .error .out_of_fuel
  | fuel + 1, st =>
    if loop_cond size st then
      match loop_body sections name st with
      | .ok st1 =>
        match loop_iterations sections size name fuel st1 with
        | .ok k => .ok (k + 1)
        | .error f => .error f
      | .error f => .error f
    else .ok 0

/-- The two variables after `k` iterations of the loop of `find_section_index_by_name`,
started with `index = -1` and `i = 0`; once the condition is false the state stays. -/
def state_after (sections : List (Option elf_section_header)) (size : Nat)
    (name : Option CString) : Nat → Except Fault LoopState
  | 0 => .ok { index := -1, i := 0 }
  | k + 1 =>
    match state_after sections size name k with
    | .ok st => if loop_cond size st then loop_body sections name st else .ok st
    | .error f => .error f

/-- Two slots that reference no valid header: a null pointer, and a header whose tag is
none of the declared kinds. -/
def table_invalid : List (Option elf_section_header) :=
  [none, some { type := .other 7, data := no_data }]

/-- A table of `2^31` Null headers. -/
def table_overflow : List (Option elf_section_header) :=
  List.replicate 2147483648 (some Null)

/-- A table of `2^31` headers `Progbits("x")` followed by one Null header. -/
def table_null_late : List (Option elf_section_header) :=
  List.replicate 2147483648 (some (Progbits str_x)) ++ [some Null]

/-! ## The comparison -/

theorem strcmp_eq_zero_iff (a : CString) :
    ∀ b : CString, nul_free a → nul_free b → (strcmp a b = 0 ↔ a = b) := by
  induction a with
  | nil =>
    intro b _ hb
    cases b with
    | nil => simp [strcmp]
    | cons y b =>
      have hy : y ≠ 0 := hb y (by simp)
      simp only [strcmp]
      constructor
      · intro h; omega
      · intro h; cases h
  | cons x a ih =>
    intro b ha hb
    have hx : x ≠ 0 := ha x (by simp)
    cases b with
    | nil =>
      simp only [strcmp]
      constructor
      · intro h; omega
      · intro h; cases h
    | cons y b =>
      have ha1 : nul_free a := fun c hc => ha c (by simp [hc])
      have hb1 : nul_free b := fun c hc => hb c (by simp [hc])
      simp only [strcmp]
      by_cases hxy : x = y
      · subst hxy
        simp only [if_true, if_neg hx]
        rw [ih b ha1 hb1]
        simp
      · rw [if_neg hxy]
        constructor
        · intro h; omega
        · intro h; cases h; exact absurd rfl hxy

/-! ## The loop, one iteration at a time -/

theorem loop_cond_scanning (size i : Nat) (hi : (i : Int) < UINT_RANGE) :
    loop_cond size { index := -1, i := (i : Int) } = decide (i < size) := by
  unfold loop_cond
  unfold UINT_RANGE at hi
  have h1 : ((i : Int) % UINT_RANGE).toNat = i := by
    unfold UINT_RANGE
    omega
  simp [h1]

theorem loop_cond_found (size : Nat) (k : Nat) (j : Int) :
    loop_cond size { index := (k : Int), i := j } = false := by
  unfold loop_cond
  have h : ((k : Int) == -1) = false := by
    simp
  simp [h]

theorem loop_body_at (sections : List (Option elf_section_header)) (n : CString)
    (i : Nat) (index : Int) (sect : elf_section_header) (sn : CString)
    (hget : sections[i]? = some (some sect)) (hname : get_section_name sect = some sn)
    (hi : (i : Int) + 1 ≤ INT_MAX) :
    loop_body sections (some n) { index := index, i := (i : Int) } =
      .ok { index := if strcmp sn n = 0 then (i : Int) else index, i := (i : Int) + 1 } := by
  unfold loop_body
  have h0 : ¬ ((i : Int) < 0) := by omega
  simp only [h0, if_false, Int.toNat_ofNat, hget, hname, hi, if_true]

theorem name_at_of_get (sections : List (Option elf_section_header)) (j : Nat)
    (sect : elf_section_header) (hget : sections[j]? = some (some sect)) :
    name_at sections j = get_section_name sect := by
  unfold name_at
  rw [hget]

theorem valid_table_get (sections : List (Option elf_section_header))
    (hS : valid_table sections) (j : Nat) (hj : j < sections.length) :
    ∃ sect, sections[j]? = some (some sect) ∧ valid_header sect := by
  obtain ⟨sect, he, hv⟩ := hS (sections.get ⟨j, hj⟩) (List.get_mem sections j hj)
  refine ⟨sect, ?_, hv⟩
  rw [List.getElem?_eq_getElem hj]
  exact congrArg some he

theorem declared_header_name (sect : elf_section_header) (h : declared_header sect) :
    ∃ s, get_section_name sect = some s := by
  unfold declared_header at h
  unfold get_section_name
  split at h
  · exact ⟨[], rfl⟩
  · exact Option.ne_none_iff_exists'.mp h
  · exact Option.ne_none_iff_exists'.mp h
  · exact Option.ne_none_iff_exists'.mp h
  · exact Option.ne_none_iff_exists'.mp h
  · exact Option.ne_none_iff_exists'.mp h
  · exact absurd h not_false

theorem while_loop_scan (sections : List (Option elf_section_header)) (n : CString)
    (hS : valid_table sections) (hn : nul_free n)
    (hsz : (sections.length : Int) ≤ INT_MAX) :
    ∀ (d i fuel : Nat), i + d = sections.length → d < fuel →
      ∃ st, while_loop sections sections.length (some n) fuel { index := -1, i := (i : Int) }
          = .ok st ∧ scan_result sections n i st := by
  have hmax : INT_MAX = 2147483647 := rfl
  intro d
  induction d with
  | zero =>
    intro i fuel hi hf
    obtain ⟨f, rfl⟩ : ∃ f, fuel = f + 1 := ⟨fuel - 1, by omega⟩
    have hc : loop_cond sections.length { index := -1, i := (i : Int) } = false := by
      rw [loop_cond_scanning _ _ (by unfold UINT_RANGE; omega)]
      simp
      omega
    refine ⟨{ index := -1, i := (i : Int) }, ?_, ?_⟩
    · simp [while_loop, hc]
    · left
      refine ⟨rfl, ?_, ?_⟩
      · show (i : Int) = _
        omega
      · intro j h1 h2
        omega
  | succ d ih =>
    intro i fuel hi hf
    obtain ⟨f, rfl⟩ : ∃ f, fuel = f + 1 := ⟨fuel - 1, by omega⟩
    have hlt : i < sections.length := by omega
    have hc : loop_cond sections.length { index := -1, i := (i : Int) } = true := by
      rw [loop_cond_scanning _ _ (by unfold UINT_RANGE; omega)]
      simp [hlt]
    obtain ⟨sect, hget, hdecl, hnul⟩ := valid_table_get sections hS i hlt
    obtain ⟨sn, hsn⟩ := declared_header_name sect hdecl
    have hbody := loop_body_at sections n i (-1) sect sn hget hsn (by omega)
    have hcmp := strcmp_eq_zero_iff sn n (hnul sn hsn) hn
    by_cases heq : sn = n
    · -- the entry at `i` matches: `index = i`, and the next test of the condition fails
      have hz : strcmp sn n = 0 := hcmp.mpr heq
      rw [if_pos hz] at hbody
      obtain ⟨g, rfl⟩ : ∃ g, f = g + 1 := ⟨f - 1, by omega⟩
      refine ⟨{ index := (i : Int), i := (i : Int) + 1 }, ?_, ?_⟩
      · rw [while_loop]
        simp only [hc, if_true, hbody]
        rw [while_loop]
        simp [loop_cond_found]
      · right
        refine ⟨i, le_refl i, hlt, rfl, rfl, ?_, ?_⟩
        · rw [name_at_of_get sections i sect hget, hsn, heq]
        · intro j h1 h2
          omega
    · -- no match at `i`: the scan goes on from `i + 1`
      have hz : ¬ strcmp sn n = 0 := fun h => heq (hcmp.mp h)
      rw [if_neg hz] at hbody
      obtain ⟨st, hrun, hres⟩ := ih (i + 1) f (by omega) (by omega)
      refine ⟨st, ?_, ?_⟩
      · rw [while_loop]
        simp only [hc, if_true, hbody]
        have hcast : ((i : Int) + 1) = ((i + 1 : Nat) : Int) := by push_cast; rfl
        rw [hcast]
        exact hrun
      · have hi_ne : name_at sections i ≠ some n := by
          rw [name_at_of_get sections i sect hget, hsn]
          intro h
          exact heq (Option.some.inj h)
        rcases hres with ⟨h1, h2, h3⟩ | ⟨k, h1, h2, h3, h4, h5, h6⟩
        · left
          refine ⟨h1, h2, ?_⟩
          intro j hj1 hj2
          by_cases hji : j = i
          · rw [hji]; exact hi_ne
          · exact h3 j (by omega) hj2
        · right
          refine ⟨k, by omega, h2, h3, h4, h5, ?_⟩
          intro j hj1 hj2
          by_cases hji : j = i
          · rw [hji]; exact hi_ne
          · exact h6 j (by omega) hj2

theorem find_section_index_by_name_scan (sections : List (Option elf_section_header))
    (size : Nat) (n : CString) (hlen : sections.length = size) (hsize : size ≤ 2147483647)
    (hvalid : valid_table sections) (hn : nul_free n) :
    ∃ st, find_section_index_by_name sections size (some n) = .ok st.index ∧
      scan_result sections n 0 st := by
  subst hlen
  have hsz : (sections.length : Int) ≤ INT_MAX := by
    unfold INT_MAX
    omega
  obtain ⟨st, hrun, hres⟩ :=
    while_loop_scan sections n hvalid hn hsz sections.length 0 (sections.length + 1)
      (by omega) (by omega)
  refine ⟨st, ?_, hres⟩
  unfold find_section_index_by_name
  have h0 : ((0 : Nat) : Int) = 0 := rfl
  rw [h0] at hrun
  rw [hrun]

/-! ## Validity of the sample tables -/

theorem valid_header_Null : valid_header Null := by
  refine ⟨by simp [declared_header, Null], ?_⟩
  intro s hs
  simp [get_section_name, Null] at hs
  subst hs
  intro b hb
  cases hb

theorem valid_header_Progbits (name : CString) (h : nul_free name) :
    valid_header (Progbits name) := by
  refine ⟨by simp [declared_header, Progbits], ?_⟩
  intro s hs
  simp [get_section_name, Progbits] at hs
  subst hs
  exact h

theorem valid_header_Strtab (name : CString) (h : nul_free name) :
    valid_header (Strtab name) := by
  refine ⟨by simp [declared_header, Strtab], ?_⟩
  intro s hs
  simp [get_section_name, Strtab] at hs
  subst hs
  exact h

theorem valid_header_Symtab (name : CString) (h : nul_free name) :
    valid_header (Symtab name) := by
  refine ⟨by simp [declared_header, Symtab], ?_⟩
  intro s hs
  simp [get_section_name, Symtab] at hs
  subst hs
  exact h

theorem valid_table_nil : valid_table [] := by
  intro e he
  cases he

theorem valid_table_cons (sect : elf_section_header)
    (sections : List (Option elf_section_header)) (h : valid_header sect)
    (hs : valid_table sections) : valid_table (some sect :: sections) := by
  intro e he
  rcases List.mem_cons.mp he with rfl | he1
  · exact ⟨sect, rfl, h⟩
  · exact hs e he1

theorem valid_table_dup : valid_table table_dup :=
  valid_table_cons _ _ (valid_header_Progbits str_x (by decide))
    (valid_table_cons _ _ (valid_header_Progbits str_x (by decide)) valid_table_nil)

theorem valid_table_scenario : valid_table table_scenario :=
  valid_table_cons _ _ valid_header_Null
    (valid_table_cons _ _ (valid_header_Strtab str_shstrtab (by decide))
      (valid_table_cons _ _ (valid_header_Symtab str_symtab (by decide)) valid_table_nil))

/-! ## What the loop can leave in `index`, on any input -/

theorem loop_body_inv (sections : List (Option elf_section_header)) (size : Nat)
    (name : Option CString) (st st1 : LoopState)
    (hc : loop_cond size st = true) (h0 : 0 ≤ st.i) (h1 : st.i ≤ INT_MAX)
    (hb : loop_body sections name st = .ok st1) :
    0 ≤ st1.i ∧ st1.i ≤ INT_MAX ∧ result_in_range sections size name st1.index := by
  unfold loop_cond at hc
  simp only [Bool.and_eq_true, beq_iff_eq, decide_eq_true_eq] at hc
  obtain ⟨hidx, hlt⟩ := hc
  have hmod : st.i % UINT_RANGE = st.i := by
    unfold UINT_RANGE
    unfold INT_MAX at h1
    omega
  rw [hmod] at hlt
  unfold loop_body at hb
  split at hb
  · cases hb
  · split at hb
    · cases hb
    · cases hb
    · rename_i sect hget
      split at hb
      · rename_i sn n hsn
        simp only at hb
        split at hb
        · rename_i hle
          cases hb
          refine ⟨by show 0 ≤ st.i + 1; omega, hle, ?_⟩
          by_cases hz : strcmp sn n = 0
          · right
            simp only [if_pos hz]
            refine ⟨h0, by omega, sn, n, ?_, rfl, hz⟩
            rw [name_at_of_get sections st.i.toNat sect hget]
            exact hsn
          · left
            simp only [if_neg hz]
            exact hidx
        · cases hb
      · cases hb

theorem while_loop_inv (sections : List (Option elf_section_header)) (size : Nat)
    (name : Option CString) :
    ∀ (fuel : Nat) (st st1 : LoopState), 0 ≤ st.i → st.i ≤ INT_MAX →
      result_in_range sections size name st.index →
      while_loop sections size name fuel st = .ok st1 →
      0 ≤ st1.i ∧ st1.i ≤ INT_MAX ∧ result_in_range sections size name st1.index := by
  intro fuel
  induction fuel with
  | zero =>
    intro st st1 _ _ _ h
    simp [while_loop] at h
  | succ f ih =>
    intro st st1 h0 h1 hr h
    rw [while_loop] at h
    split at h
    · rename_i hc
      split at h
      · rename_i st2 hb
        obtain ⟨a, b, c⟩ := loop_body_inv sections size name st st2 hc h0 h1 hb
        exact ih st2 st1 a b c h
      · cases h
    · cases h
      exact ⟨h0, h1, hr⟩

theorem find_section_index_by_name_in_range (sections : List (Option elf_section_header))
    (size : Nat) (name : Option CString) (r : Int)
    (h : find_section_index_by_name sections size name = .ok r) :
    result_in_range sections size name r := by
  unfold find_section_index_by_name at h
  split at h
  · rename_i st hst
    cases h
    exact (while_loop_inv sections size name (size + 1) { index := -1, i := 0 } st
      (le_refl 0) (by decide) (Or.inl rfl) hst).2.2
  · cases h

/-! ## The claims -/

/-- C1. First match: on a table of `size` valid headers, `size` at most `2^31 - 1`,
`find_section_index_by_name` returns, and a result `i` other than `-1` is an index of
the table at which the projected name equals the query while it differs from the
query at every index below `i`. On `[Progbits("x"), Progbits("x")]` queried with "x"
the result is `0`. -/
theorem find_section_index_by_name_first_match :
    (∀ (sections : List (Option elf_section_header)) (size : Nat) (n : CString),
      sections.length = size → size ≤ 2147483647 → valid_table sections → nul_free n →
      ∃ r : Int, find_section_index_by_name sections size (some n) = .ok r ∧
        (r ≠ -1 → ∃ i : Nat, r = (i : Int) ∧ i < size ∧ name_at sections i = some n ∧
          ∀ j, j < i → name_at sections j ≠ some n)) ∧
    find_section_index_by_name table_dup 2 (some str_x) = .ok 0 := by
  refine ⟨?_, by decide⟩
  intro sections size n hlen hsize hvalid hn
  obtain ⟨st, hrun, hres⟩ :=
    find_section_index_by_name_scan sections size n hlen hsize hvalid hn
  refine ⟨st.index, hrun, ?_⟩
  intro hne
  rcases hres with ⟨h1, _, _⟩ | ⟨k, _, h2, h3, _, h5, h6⟩
  · exact absurd h1 hne
  · exact ⟨k, h3, by omega, h5, fun j hj => h6 j (Nat.zero_le j) hj⟩

/-- Witness of C1 on the table `[Progbits("x"), Progbits("x")]` and the query "x". -/
theorem find_section_index_by_name_first_match_witness :
    table_dup.length = 2 ∧ valid_table table_dup ∧ nul_free str_x ∧
    ∃ r : Int, find_section_index_by_name table_dup 2 (some str_x) = .ok r ∧
      (r ≠ -1 → ∃ i : Nat, r = (i : Int) ∧ i < 2 ∧ name_at table_dup i = some str_x ∧
        ∀ j, j < i → name_at table_dup j ≠ some str_x) :=
  ⟨rfl, valid_table_dup, by decide,
    find_section_index_by_name_first_match.1 table_dup 2 str_x rfl (by decide)
      valid_table_dup (by decide)⟩

/-- C2. Not found exactly when nothing matches: on a table of `size` valid headers,
`size` at most `2^31 - 1`, `find_section_index_by_name` returns a value (a miss is no
fault), and that value is `-1` if and only if no index below `size` has a projected
name equal to the query. -/
theorem find_section_index_by_name_not_found_iff
    (sections : List (Option elf_section_header)) (size : Nat) (n : CString)
    (hlen : sections.length = size) (hsize : size ≤ 2147483647)
    (hvalid : valid_table sections) (hn : nul_free n) :
    ∃ r : Int, find_section_index_by_name sections size (some n) = .ok r ∧
      (r = -1 ↔ ∀ j, j < size → name_at sections j ≠ some n) := by
  obtain ⟨st, hrun, hres⟩ :=
    find_section_index_by_name_scan sections size n hlen hsize hvalid hn
  refine ⟨st.index, hrun, ?_⟩
  subst hlen
  rcases hres with ⟨h1, _, h3⟩ | ⟨k, _, h2, h3, _, h5, _⟩
  · exact ⟨fun _ j hj => h3 j (Nat.zero_le j) hj, fun _ => h1⟩
  · constructor
    · intro h
      omega
    · intro h
      exact absurd h5 (h k h2)

/-- Witness of C2 on `[Null, Strtab("shstrtab"), Symtab("symtab")]` and "missing". -/
theorem find_section_index_by_name_not_found_iff_witness :
    find_section_index_by_name table_scenario 3 (some str_missing) = .ok (-1) ∧
    ∃ r : Int, find_section_index_by_name table_scenario 3 (some str_missing) = .ok r ∧
      (r = -1 ↔ ∀ j, j < 3 → name_at table_scenario j ≠ some str_missing) :=
  ⟨by decide,
    find_section_index_by_name_not_found_iff table_scenario 3 str_missing rfl (by decide)
      valid_table_scenario (by decide)⟩

/-- C3. Range of the result: whatever the table, `size` and the query are, a value `r`
that `find_section_index_by_name` returns is `-1`, or it satisfies `0 ≤ r < size` and
`strcmp` finds the name projected at `r` equal to the query; and on a table of `size`
valid headers, `size` at most `2^31 - 1`, it does return such an `r`, where the name
projected at `r` is the query itself. -/
theorem find_section_index_by_name_range
    (sections : List (Option elf_section_header)) (size : Nat) (n : CString) :
    (∀ r : Int, find_section_index_by_name sections size (some n) = .ok r →
      r = -1 ∨ (0 ≤ r ∧ r < (size : Int) ∧
        ∃ sn, name_at sections r.toNat = some sn ∧ strcmp sn n = 0)) ∧
    (sections.length = size → size ≤ 2147483647 → valid_table sections → nul_free n →
      ∃ r : Int, find_section_index_by_name sections size (some n) = .ok r ∧
        (r = -1 ∨ (0 ≤ r ∧ r < (size : Int) ∧ name_at sections r.toNat = some n))) := by
  constructor
  · intro r hr
    rcases find_section_index_by_name_in_range sections size (some n) r hr with
      h | ⟨h0, h1, sn, m, hsn, hm, hz⟩
    · exact Or.inl h
    · cases hm
      exact Or.inr ⟨h0, h1, sn, hsn, hz⟩
  · intro hlen hsize hvalid hn
    obtain ⟨st, hrun, hres⟩ :=
      find_section_index_by_name_scan sections size n hlen hsize hvalid hn
    refine ⟨st.index, hrun, ?_⟩
    subst hlen
    rcases hres with ⟨h1, _, _⟩ | ⟨k, _, h2, h3, _, h5, _⟩
    · exact Or.inl h1
    · right
      rw [h3]
      refine ⟨by omega, by omega, ?_⟩
      rw [Int.toNat_ofNat]
      exact h5

/-- Witness of C3 on `[Null, Strtab("shstrtab"), Symtab("symtab")]` and "symtab". -/
theorem find_section_index_by_name_range_witness :
    find_section_index_by_name table_scenario 3 (some str_symtab) = .ok 2 ∧
    ∃ r : Int, find_section_index_by_name table_scenario 3 (some str_symtab) = .ok r ∧
      (r = -1 ∨ (0 ≤ r ∧ r < ((3 : Nat) : Int) ∧
        name_at table_scenario r.toNat = some str_symtab)) :=
  ⟨by decide,
    (find_section_index_by_name_range table_scenario 3 str_symtab).2 rfl (by decide)
      valid_table_scenario (by decide)⟩

/-- C4. Name projection of the non-Null kinds: a header whose tag is `S_PROGBITS`,
`S_RELA`, `S_NOBITS`, `S_SYMTAB` or `S_STRTAB` projects to the `section_name` stored in
the payload of that same tag, unmodified, whatever the other payloads hold. -/
theorem get_section_name_stored (v : elf_section_header) :
    (v.type = .S_PROGBITS → get_section_name v = v.data.s_progbits.section_name) ∧
    (v.type = .S_RELA → get_section_name v = v.data.s_rela.section_name) ∧
    (v.type = .S_NOBITS → get_section_name v = v.data.s_nobits.section_name) ∧
    (v.type = .S_SYMTAB → get_section_name v = v.data.s_symtab.section_name) ∧
    (v.type = .S_STRTAB → get_section_name v = v.data.s_strtab.section_name) := by
  unfold get_section_name
  refine ⟨?_, ?_, ?_, ?_, ?_⟩ <;> intro h <;> rw [h]

/-- Witness of C4: with five different stored names, each tag selects its own. -/
theorem get_section_name_stored_witness :
    get_section_name { type := .S_PROGBITS, data := data_five } = some [112] ∧
    get_section_name { type := .S_RELA, data := data_five } = some [114] ∧
    get_section_name { type := .S_NOBITS, data := data_five } = some [110] ∧
    get_section_name { type := .S_SYMTAB, data := data_five } = some [115] ∧
    get_section_name { type := .S_STRTAB, data := data_five } = some [116] :=
  ⟨(get_section_name_stored { type := .S_PROGBITS, data := data_five }).1 rfl,
    (get_section_name_stored { type := .S_RELA, data := data_five }).2.1 rfl,
    (get_section_name_stored { type := .S_NOBITS, data := data_five }).2.2.1 rfl,
    (get_section_name_stored { type := .S_SYMTAB, data := data_five }).2.2.2.1 rfl,
    (get_section_name_stored { type := .S_STRTAB, data := data_five }).2.2.2.2 rfl⟩

/-- C5. Name of Null: a header whose tag is `S_NULL` projects to the empty string,
whatever its payloads hold. -/
theorem get_section_name_null (v : elf_section_header) (h : v.type = .S_NULL) :
    get_section_name v = some [] := by
  unfold get_section_name
  rw [h]

/-- Witness of C5: a Null header whose payloads all hold a name still projects to "". -/
theorem get_section_name_null_witness :
    get_section_name { type := .S_NULL, data := data_five } = some [] :=
  get_section_name_null { type := .S_NULL, data := data_five } rfl

theorem loop_body_no_null_string (sections : List (Option elf_section_header))
    (n : CString) (hS : declared_table sections) (st : LoopState) :
    loop_body sections (some n) st ≠ .error .null_string := by
  unfold loop_body
  split
  · intro h; cases h
  · split
    · intro h; cases h
    · intro h; cases h
    · rename_i sect hget
      have hmem : some sect ∈ sections := List.getElem?_mem hget
      obtain ⟨sect1, he, hd⟩ := hS (some sect) hmem
      cases he
      obtain ⟨sn, hsn⟩ := declared_header_name sect hd
      rw [hsn]
      simp only
      split
      · intro h; cases h
      · intro h; cases h

theorem while_loop_no_null_string (sections : List (Option elf_section_header))
    (size : Nat) (n : CString) (hS : declared_table sections) :
    ∀ (fuel : Nat) (st : LoopState),
      while_loop sections size (some n) fuel st ≠ .error .null_string := by
  intro fuel
  induction fuel with
  | zero =>
    intro st h
    simp [while_loop] at h
  | succ f ih =>
    intro st
    rw [while_loop]
    split
    · have hb := loop_body_no_null_string sections n hS st
      split
      · exact ih _
      · rename_i f1 hf1
        intro h
        cases h
        exact hb hf1
    · intro h; cases h

/-- C6. No null name: a header of one of the six declared kinds, whose stored name (for
the non-Null kinds) is non-null, projects to a non-null string; and on a table whose
entries all reference such headers, `find_section_index_by_name` never ends in a call
of `strcmp` with a null string, whatever `size` and the query are. -/
theorem get_section_name_non_null :
    (∀ v : elf_section_header, declared_header v → ∃ s, get_section_name v = some s) ∧
    (∀ (sections : List (Option elf_section_header)) (size : Nat) (n : CString),
      declared_table sections →
      find_section_index_by_name sections size (some n) ≠ .error .null_string) := by
  refine ⟨declared_header_name, ?_⟩
  intro sections size n hS
  unfold find_section_index_by_name
  have h := while_loop_no_null_string sections size n hS (size + 1) { index := -1, i := 0 }
  split
  · intro h1; cases h1
  · rename_i f hf
    intro h1
    cases h1
    exact h hf

theorem declared_table_of_valid (sections : List (Option elf_section_header))
    (h : valid_table sections) : declared_table sections := by
  intro e he
  obtain ⟨sect, h1, h2, _⟩ := h e he
  exact ⟨sect, h1, h2⟩

/-- Witness of C6 on `[Null, Strtab("shstrtab"), Symtab("symtab")]`; a header with an
undeclared tag, by contrast, does bring a null string to `strcmp`. -/
theorem get_section_name_non_null_witness :
    declared_header (Symtab str_symtab) ∧
    (∃ s, get_section_name (Symtab str_symtab) = some s) ∧
    declared_table table_scenario ∧
    find_section_index_by_name table_scenario 3 (some str_missing) ≠ .error .null_string ∧
    find_section_index_by_name [some { type := .other 7, data := no_data }] 1 (some [])
      = .error .null_string :=
  ⟨(valid_header_Symtab str_symtab (by decide)).1,
    get_section_name_non_null.1 (Symtab str_symtab)
      (valid_header_Symtab str_symtab (by decide)).1,
    declared_table_of_valid table_scenario valid_table_scenario,
    get_section_name_non_null.2 table_scenario 3 str_missing
      (declared_table_of_valid table_scenario valid_table_scenario),
    by decide⟩

theorem valid_table_name_at (sections : List (Option elf_section_header))
    (hS : valid_table sections) (k : Nat) (hk : k < sections.length) :
    ∃ sn, name_at sections k = some sn ∧ nul_free sn := by
  obtain ⟨sect, hget, hdecl, hnul⟩ := valid_table_get sections hS k hk
  obtain ⟨sn, hsn⟩ := declared_header_name sect hdecl
  refine ⟨sn, ?_, hnul sn hsn⟩
  rw [name_at_of_get sections k sect hget, hsn]

/-- C7. Lookup inverts indexing: on a table of `size` valid headers, `size` at most
`2^31 - 1`, whose projected names are pairwise distinct, looking up the name projected
from entry `k` returns `k`, for every `k < size`, and looking up a name that no entry
projects to returns `-1`. On `[Null, Strtab("shstrtab"), Symtab("symtab")]` the query
"symtab" gives `2` and the query "missing" gives `-1`. -/
theorem find_section_index_by_name_inverts_index :
    (∀ (sections : List (Option elf_section_header)) (size : Nat),
      sections.length = size → size ≤ 2147483647 → valid_table sections →
      (∀ j k, j < size → k < size → name_at sections j = name_at sections k → j = k) →
      (∀ k, k < size →
        find_section_index_by_name sections size (name_at sections k) = .ok (k : Int)) ∧
      (∀ n : CString, nul_free n → (∀ j, j < size → name_at sections j ≠ some n) →
        find_section_index_by_name sections size (some n) = .ok (-1))) ∧
    find_section_index_by_name table_scenario 3 (some str_symtab) = .ok 2 ∧
    find_section_index_by_name table_scenario 3 (some str_missing) = .ok (-1) := by
  refine ⟨?_, by decide, by decide⟩
  intro sections size hlen hsize hvalid hdist
  constructor
  · intro k hk
    obtain ⟨sn, hsn, hnul⟩ := valid_table_name_at sections hvalid k (by omega)
    rw [hsn]
    obtain ⟨st, hrun, hres⟩ :=
      find_section_index_by_name_scan sections size sn hlen hsize hvalid hnul
    rw [hrun]
    rcases hres with ⟨_, _, h3⟩ | ⟨k1, _, h2, h3, _, h5, _⟩
    · exact absurd hsn (h3 k (Nat.zero_le k) (by omega))
    · have hk1 : k1 = k := hdist k1 k (by omega) hk (by rw [h5, hsn])
      rw [h3, hk1]
  · intro n hn hnone
    obtain ⟨st, hrun, hres⟩ :=
      find_section_index_by_name_scan sections size n hlen hsize hvalid hn
    rw [hrun]
    rcases hres with ⟨h1, _, _⟩ | ⟨k1, _, h2, _, _, h5, _⟩
    · rw [h1]
    · exact absurd h5 (hnone k1 (by omega))

theorem table_scenario_distinct :
    ∀ j k, j < 3 → k < 3 → name_at table_scenario j = name_at table_scenario k → j = k := by
  intro j k hj hk
  interval_cases j <;> interval_cases k <;> decide

theorem table_scenario_missing :
    ∀ j, j < 3 → name_at table_scenario j ≠ some str_missing := by
  intro j hj
  interval_cases j <;> decide

/-- Witness of C7 on `[Null, Strtab("shstrtab"), Symtab("symtab")]`. -/
theorem find_section_index_by_name_inverts_index_witness :
    find_section_index_by_name table_scenario 3 (name_at table_scenario 2) = .ok 2 ∧
    find_section_index_by_name table_scenario 3 (name_at table_scenario 1) = .ok 1 ∧
    find_section_index_by_name table_scenario 3 (name_at table_scenario 0) = .ok 0 ∧
    find_section_index_by_name table_scenario 3 (some str_missing) = .ok (-1) :=
  have h := find_section_index_by_name_inverts_index.1 table_scenario 3 rfl (by decide)
    valid_table_scenario table_scenario_distinct
  ⟨h.1 2 (by decide), h.1 1 (by decide), h.1 0 (by decide),
    h.2 str_missing (by decide) table_scenario_missing⟩

theorem find_first_entry_null (d : section_data)
    (rest : List (Option elf_section_header)) (size : Nat) (hsize : 0 < size) :
    find_section_index_by_name (some { type := .S_NULL, data := d } :: rest) size (some [])
      = .ok 0 := by
  obtain ⟨f, rfl⟩ : ∃ f, size = f + 1 := ⟨size - 1, by omega⟩
  have hc : loop_cond (f + 1) { index := -1, i := ((0 : Nat) : Int) } = true := by
    rw [loop_cond_scanning _ _ (by unfold UINT_RANGE; omega)]
    simp
  have hbody := loop_body_at (some { type := .S_NULL, data := d } :: rest) [] 0 (-1)
    { type := .S_NULL, data := d } [] (by simp) rfl (by unfold INT_MAX; omega)
  have hz : strcmp [] [] = 0 := rfl
  rw [if_pos hz] at hbody
  have h0 : ((0 : Nat) : Int) = 0 := rfl
  rw [h0] at hc hbody
  unfold find_section_index_by_name
  rw [while_loop]
  simp only [hc, if_true, hbody]
  rw [while_loop]
  have hf : loop_cond (f + 1) { index := 0, i := 1 } = false := loop_cond_found (f + 1) 0 1
  simp [hf]

/-- C9. Empty table: with `size == 0`, `find_section_index_by_name` returns `-1` for
every query (the empty one and a null pointer included) and for every `sections`
array, also one with no entry to read: no entry is read. -/
theorem find_section_index_by_name_size_zero
    (sections : List (Option elf_section_header)) (name : Option CString) :
    find_section_index_by_name sections 0 name = .ok (-1) :=
  rfl

theorem find_single_entry (sect : elf_section_header) (a b : CString)
    (hname : get_section_name sect = some a) :
    find_section_index_by_name [some sect] 1 (some b)
      = .ok (if strcmp a b = 0 then 0 else -1) := by
  have hc : loop_cond 1 { index := -1, i := 0 } = true := by decide
  have hbody := loop_body_at [some sect] b 0 (-1) sect a (by simp) hname
    (by unfold INT_MAX; omega)
  have h0 : ((0 : Nat) : Int) = 0 := rfl
  rw [h0] at hbody
  have hend : ∀ idx : Int, loop_cond 1 { index := idx, i := 1 } = false := by
    intro idx
    unfold loop_cond
    have h1 : ((1 : Int) % UINT_RANGE).toNat = 1 := by decide
    simp only [h1]
    simp
  unfold find_section_index_by_name
  rw [while_loop]
  simp only [hc, if_true, hbody]
  rw [while_loop]
  simp [hend]

/-- C10. Exact equality: for NUL-free byte strings `a` and `b`, `strcmp(a, b) == 0`
holds if and only if `a` and `b` are the same bytes. Hence the loop body, at an entry
that projects to `a`, records the entry for the query `b` exactly when `a = b`, and
the lookup of `b` in the one-entry table of that entry returns `0` when `a = b` and
`-1` otherwise. -/
theorem strcmp_exact_equality (a b : CString) (ha : nul_free a) (hb : nul_free b) :
    (strcmp a b = 0 ↔ a = b) ∧
    (∀ (sections : List (Option elf_section_header)) (i : Nat) (index : Int)
      (sect : elf_section_header),
      sections[i]? = some (some sect) → get_section_name sect = some a →
      (i : Int) + 1 ≤ INT_MAX →
      loop_body sections (some b) { index := index, i := (i : Int) } =
        .ok { index := if a = b then (i : Int) else index, i := (i : Int) + 1 }) ∧
    (∀ sect : elf_section_header, get_section_name sect = some a →
      find_section_index_by_name [some sect] 1 (some b) = .ok (if a = b then 0 else -1)) := by
  have hiff := strcmp_eq_zero_iff a b ha hb
  refine ⟨hiff, ?_, ?_⟩
  · intro sections i index sect hget hname hi
    rw [loop_body_at sections b i index sect a hget hname hi]
    by_cases h : a = b
    · rw [if_pos (hiff.mpr h), if_pos h]
    · rw [if_neg (fun hz => h (hiff.mp hz)), if_neg h]
  · intro sect hname
    rw [find_single_entry sect a b hname]
    by_cases h : a = b
    · rw [if_pos (hiff.mpr h), if_pos h]
    · rw [if_neg (fun hz => h (hiff.mp hz)), if_neg h]

/-- Witness of C10: against the entry `Symtab("symtab")`, the query "symtab" matches,
and the strict prefix "sym" and the upper-case "SYMTAB" do not; against the entry
`Symtab("sym")`, the strict extension "symtab" does not. -/
theorem strcmp_exact_equality_witness :
    strcmp str_symtab str_symtab = 0 ∧
    strcmp str_symtab str_sym ≠ 0 ∧
    strcmp str_sym str_symtab ≠ 0 ∧
    strcmp str_symtab str_SYMTAB ≠ 0 ∧
    find_section_index_by_name [some (Symtab str_symtab)] 1 (some str_symtab) = .ok 0 ∧
    find_section_index_by_name [some (Symtab str_symtab)] 1 (some str_sym) = .ok (-1) ∧
    find_section_index_by_name [some (Symtab str_sym)] 1 (some str_symtab) = .ok (-1) ∧
    find_section_index_by_name [some (Symtab str_symtab)] 1 (some str_SYMTAB) = .ok (-1) :=
  ⟨(strcmp_exact_equality str_symtab str_symtab (by decide) (by decide)).1.mpr rfl,
    fun h => absurd ((strcmp_exact_equality str_symtab str_sym (by decide) (by decide)).1.mp h)
      (by decide),
    fun h => absurd ((strcmp_exact_equality str_sym str_symtab (by decide) (by decide)).1.mp h)
      (by decide),
    fun h => absurd
      ((strcmp_exact_equality str_symtab str_SYMTAB (by decide) (by decide)).1.mp h)
      (by decide),
    (strcmp_exact_equality str_symtab str_symtab (by decide) (by decide)).2.2
      (Symtab str_symtab) rfl,
    (strcmp_exact_equality str_symtab str_sym (by decide) (by decide)).2.2
      (Symtab str_symtab) rfl,
    (strcmp_exact_equality str_sym str_symtab (by decide) (by decide)).2.2
      (Symtab str_sym) rfl,
    (strcmp_exact_equality str_symtab str_SYMTAB (by decide) (by decide)).2.2
      (Symtab str_symtab) rfl⟩

/-! ## Runs of the loop: what one iteration does, and how much fuel a run takes -/

theorem loop_body_ok (sections : List (Option elf_section_header))
    (name : Option CString) (st st2 : LoopState)
    (h : loop_body sections name st = .ok st2) :
    0 ≤ st.i ∧ st.i + 1 ≤ INT_MAX ∧ st2.i = st.i + 1 ∧
    ∃ sect sn n, sections[st.i.toNat]? = some (some sect) ∧
      get_section_name sect = some sn ∧ name = some n ∧
      st2.index = if strcmp sn n = 0 then st.i else st.index := by
  unfold loop_body at h
  split at h
  · cases h
  · rename_i hneg
    split at h
    · cases h
    · cases h
    · rename_i sect hget
      split at h
      · rename_i sn n hsn
        simp only at h
        split at h
        · rename_i hle
          cases h
          exact ⟨by omega, hle, rfl, sect, sn, n, hget, hsn, rfl, rfl⟩
        · cases h
      · cases h

theorem loop_body_congr (s1 s2 : List (Option elf_section_header))
    (name : Option CString) (st : LoopState)
    (h : s2[st.i.toNat]? = s1[st.i.toNat]?) :
    loop_body s2 name st = loop_body s1 name st := by
  unfold loop_body
  rw [h]

theorem loop_cond_true (size : Nat) (st : LoopState) (h : loop_cond size st = true) :
    st.index = -1 ∧ (st.i % UINT_RANGE).toNat < size := by
  unfold loop_cond at h
  simp only [Bool.and_eq_true, beq_iff_eq, decide_eq_true_eq] at h
  exact h

theorem loop_cond_false (size : Nat) (st : LoopState) (h : ¬ loop_cond size st = true) :
    st.index ≠ -1 ∨ size ≤ (st.i % UINT_RANGE).toNat := by
  unfold loop_cond at h
  simp only [Bool.and_eq_true, beq_iff_eq, decide_eq_true_eq, not_and, not_lt] at h
  by_cases hi : st.index = -1
  · exact Or.inr (h hi)
  · exact Or.inl hi

theorem loop_cond_of_index (size : Nat) (st : LoopState) (h : st.index ≠ -1) :
    loop_cond size st = false := by
  unfold loop_cond
  have hb : (st.index == -1) = false := by
    simp [h]
  simp [hb]

theorem while_loop_of_index (sections : List (Option elf_section_header)) (size : Nat)
    (name : Option CString) (fuel : Nat) (st : LoopState) (h : st.index ≠ -1) :
    while_loop sections size name (fuel + 1) st = .ok st := by
  rw [while_loop]
  simp [loop_cond_of_index size st h]

theorem while_loop_fuel (sections : List (Option elf_section_header)) (size : Nat)
    (name : Option CString) :
    ∀ (fuel : Nat) (st st1 : LoopState),
      while_loop sections size name fuel st = .ok st1 →
      st.i ≤ st1.i ∧ (st1.i - st.i).toNat + 1 ≤ fuel ∧
      ∀ fuel1, (st1.i - st.i).toNat + 1 ≤ fuel1 →
        while_loop sections size name fuel1 st = .ok st1 := by
  intro fuel
  induction fuel with
  | zero =>
    intro st st1 h
    simp [while_loop] at h
  | succ f ih =>
    intro st st1 h
    rw [while_loop] at h
    split at h
    · rename_i hc
      split at h
      · rename_i st2 hb
        obtain ⟨_, _, hi2, _⟩ := loop_body_ok sections name st st2 hb
        obtain ⟨hle, hfuel, hany⟩ := ih st2 st1 h
        refine ⟨by omega, by omega, ?_⟩
        intro fuel1 hf1
        obtain ⟨g, rfl⟩ : ∃ g, fuel1 = g + 1 := ⟨fuel1 - 1, by omega⟩
        rw [while_loop]
        simp only [hc, if_true, hb]
        exact hany g (by omega)
      · cases h
    · rename_i hc
      cases h
      refine ⟨le_refl _, by omega, ?_⟩
      intro fuel1 hf1
      obtain ⟨g, rfl⟩ : ∃ g, fuel1 = g + 1 := ⟨fuel1 - 1, by omega⟩
      rw [while_loop]
      simp [hc]

theorem while_loop_found (sections : List (Option elf_section_header)) (size : Nat)
    (name : Option CString) :
    ∀ (fuel : Nat) (st st1 : LoopState),
      while_loop sections size name fuel st = .ok st1 →
      st.index = -1 → st1.index ≠ -1 →
      0 ≤ st.i ∧ st.i ≤ st1.index ∧ st1.i = st1.index + 1 ∧ st1.i ≤ INT_MAX := by
  intro fuel
  induction fuel with
  | zero =>
    intro st st1 h
    simp [while_loop] at h
  | succ f ih =>
    intro st st1 h hidx hne
    rw [while_loop] at h
    split at h
    · split at h
      · rename_i st2 hb
        obtain ⟨h0, hmax, hi2, sect, sn, n, _, _, _, hidx2⟩ :=
          loop_body_ok sections name st st2 hb
        by_cases hz : strcmp sn n = 0
        · rw [if_pos hz] at hidx2
          have hne2 : st2.index ≠ -1 := by omega
          obtain ⟨g, rfl⟩ : ∃ g, f = g + 1 := by
            cases f with
            | zero => simp [while_loop] at h
            | succ g => exact ⟨g, rfl⟩
          rw [while_loop_of_index sections size name g st2 hne2] at h
          cases h
          exact ⟨h0, by omega, by omega, by omega⟩
        · rw [if_neg hz, hidx] at hidx2
          obtain ⟨_, h2, h3, h4⟩ := ih st2 st1 h hidx2 hne
          exact ⟨h0, by omega, h3, h4⟩
      · cases h
    · cases h
      exact absurd hidx hne

theorem while_loop_prefix (s1 s2 : List (Option elf_section_header)) (size1 size2 : Nat)
    (name : Option CString) :
    ∀ (fuel : Nat) (st st1 : LoopState),
      while_loop s1 size1 name fuel st = .ok st1 →
      st.index = -1 → st1.index ≠ -1 →
      (∀ j : Nat, (j : Int) ≤ st1.index → s2[j]? = s1[j]?) →
      st1.index < (size2 : Int) →
      while_loop s2 size2 name fuel st = .ok st1 := by
  intro fuel
  induction fuel with
  | zero =>
    intro st st1 h
    simp [while_loop] at h
  | succ f ih =>
    intro st st1 h hidx hne hagree hlt
    obtain ⟨h0, hle, _, hmax⟩ := while_loop_found s1 size1 name (f + 1) st st1 h hidx hne
    have hc2 : loop_cond size2 st = true := by
      unfold loop_cond
      have hmod : st.i % UINT_RANGE = st.i := by
        unfold UINT_RANGE
        unfold INT_MAX at hmax
        omega
      have hlt2 : st.i.toNat < size2 := by omega
      simp [hidx, hmod, hlt2]
    rw [while_loop] at h
    rw [while_loop]
    simp only [hc2, if_true]
    split at h
    · split at h
      · rename_i st2 hb
        have hb2 : loop_body s2 name st = .ok st2 := by
          rw [loop_body_congr s1 s2 name st (hagree st.i.toNat (by omega))]
          exact hb
        simp only [hb2]
        obtain ⟨_, _, _, sect, sn, n, _, _, _, hidx2⟩ := loop_body_ok s1 name st st2 hb
        by_cases hz : strcmp sn n = 0
        · rw [if_pos hz] at hidx2
          have hne2 : st2.index ≠ -1 := by omega
          obtain ⟨g, rfl⟩ : ∃ g, f = g + 1 := by
            cases f with
            | zero => simp [while_loop] at h
            | succ g => exact ⟨g, rfl⟩
          rw [while_loop_of_index s1 size1 name g st2 hne2] at h
          rw [while_loop_of_index s2 size2 name g st2 hne2]
          exact h
        · rw [if_neg hz, hidx] at hidx2
          exact ih st2 st1 h hidx2 hne hagree hlt
      · cases h
    · cases h
      exact absurd hidx hne

theorem find_prefix (s1 s2 : List (Option elf_section_header)) (size1 size2 : Nat)
    (name : Option CString) (r : Int)
    (h : find_section_index_by_name s1 size1 name = .ok r) (hne : r ≠ -1)
    (hagree : ∀ j : Nat, (j : Int) ≤ r → s2[j]? = s1[j]?) (hlt : r < (size2 : Int)) :
    find_section_index_by_name s2 size2 name = .ok r := by
  unfold find_section_index_by_name at h
  split at h
  · rename_i st1 hrun
    cases h
    have hrun2 := while_loop_prefix s1 s2 size1 size2 name (size1 + 1)
      { index := -1, i := 0 } st1 hrun rfl hne hagree hlt
    obtain ⟨_, _, hi1, _⟩ := while_loop_found s1 size1 name (size1 + 1)
      { index := -1, i := 0 } st1 hrun rfl hne
    obtain ⟨_, _, hany⟩ := while_loop_fuel s2 size2 name (size1 + 1)
      { index := -1, i := 0 } st1 hrun2
    have hrun3 := hany (size2 + 1) (by
      show (st1.i - 0).toNat + 1 ≤ size2 + 1
      omega)
    unfold find_section_index_by_name
    rw [hrun3]
  · cases h

/-! ## The claims on the shape of a run -/

/-- C11. The result depends on the prefix up to the first match: when
`find_section_index_by_name` on a table `S` returns an index `i` other than `-1`, it
returns the same `i` on `S ++ T` for every `T`, and on every table of more than `i`
entries that agrees with `S` at the indices `0..i`: the entries after `i` are not
read, and need be neither valid headers nor present. -/
theorem find_section_index_by_name_prefix
    (s t : List (Option elf_section_header)) (name : Option CString) (i : Int)
    (h : find_section_index_by_name s s.length name = .ok i) (hne : i ≠ -1) :
    find_section_index_by_name (s ++ t) (s ++ t).length name = .ok i ∧
    ∀ (s2 : List (Option elf_section_header)) (size2 : Nat),
      (∀ j : Nat, (j : Int) ≤ i → s2[j]? = s[j]?) → i < (size2 : Int) →
      find_section_index_by_name s2 size2 name = .ok i := by
  refine ⟨?_, fun s2 size2 hagree hlt => find_prefix s s2 s.length size2 name i h hne hagree hlt⟩
  have hr := find_section_index_by_name_in_range s s.length name i h
  rcases hr with h1 | ⟨h0, h1, _⟩
  · exact absurd h1 hne
  · apply find_prefix s (s ++ t) s.length (s ++ t).length name i h hne
    · intro j hj
      exact List.getElem?_append_left (by omega)
    · rw [List.length_append]
      omega

/-- Witness of C11: "shstrtab" is found at index 1 of
`[Null, Strtab("shstrtab"), Symtab("symtab")]`, and also when a null pointer and a
header of an undeclared kind follow the table, or replace what follows index 1. -/
theorem find_section_index_by_name_prefix_witness :
    find_section_index_by_name table_scenario 3 (some str_shstrtab) = .ok 1 ∧
    find_section_index_by_name (table_scenario ++ table_invalid) 5 (some str_shstrtab)
      = .ok 1 ∧
    find_section_index_by_name ([some Null, some (Strtab str_shstrtab)] ++ table_invalid) 4
      (some str_shstrtab) = .ok 1 :=
  have h := find_section_index_by_name_prefix table_scenario table_invalid
    (some str_shstrtab) 1 (by decide) (by decide)
  ⟨by decide, h.1,
    h.2 ([some Null, some (Strtab str_shstrtab)] ++ table_invalid) 4
      (by
        intro j hj
        have hj2 : j ≤ 1 := by omega
        interval_cases j <;> rfl)
      (by decide)⟩

theorem loop_iterations_of_run (sections : List (Option elf_section_header)) (size : Nat)
    (name : Option CString) :
    ∀ (fuel : Nat) (st st1 : LoopState),
      while_loop sections size name fuel st = .ok st1 →
      loop_iterations sections size name fuel st = .ok (st1.i - st.i).toNat := by
  intro fuel
  induction fuel with
  | zero =>
    intro st st1 h
    simp [while_loop] at h
  | succ f ih =>
    intro st st1 h
    have hle := (while_loop_fuel sections size name (f + 1) st st1 h).1
    rw [while_loop] at h
    rw [loop_iterations]
    split at h
    · rename_i hc
      split at h
      · rename_i st2 hb
        obtain ⟨_, _, hi2, _⟩ := loop_body_ok sections name st st2 hb
        have hle2 := (while_loop_fuel sections size name f st2 st1 h).1
        simp only [hc, if_true, hb, ih st2 st1 h]
        have hk : (st1.i - st2.i).toNat + 1 = (st1.i - st.i).toNat := by omega
        rw [hk]
      · cases h
    · rename_i hc
      cases h
      simp [hc]

theorem loop_measure (sections : List (Option elf_section_header)) (size : Nat)
    (name : Option CString) (st st1 : LoopState)
    (hc : loop_cond size st = true) (hb : loop_body sections name st = .ok st1) :
    0 ≤ (size : Int) - st1.i ∧ (size : Int) - st1.i < (size : Int) - st.i := by
  obtain ⟨_, hlt⟩ := loop_cond_true size st hc
  obtain ⟨h0, hmax, hi1, _⟩ := loop_body_ok sections name st st1 hb
  have hmod : st.i % UINT_RANGE = st.i := by
    unfold UINT_RANGE
    unfold INT_MAX at hmax
    omega
  rw [hmod] at hlt
  omega

/-- C12. Termination of the search loop: on a table of `size` valid headers, `size` at
most `2^31 - 1`, the loop ends, with the same final state for every amount of fuel
from `size + 1` on; its body runs `k + 1` times when the first matching entry is at
index `k` and `size` times when no entry matches, so never more than `size` times;
and each iteration of the body, on any input, makes `size - i` smaller while keeping
it non-negative. -/
theorem while_loop_terminates
    (sections : List (Option elf_section_header)) (size : Nat) (n : CString)
    (hlen : sections.length = size) (hsize : size ≤ 2147483647)
    (hvalid : valid_table sections) (hn : nul_free n) :
    (∃ (st : LoopState) (k : Nat),
      (∀ fuel, size + 1 ≤ fuel →
        while_loop sections size (some n) fuel { index := -1, i := 0 } = .ok st) ∧
      loop_iterations sections size (some n) (size + 1) { index := -1, i := 0 } = .ok k ∧
      k ≤ size ∧
      (∀ m, m < size → name_at sections m = some n →
        (∀ j, j < m → name_at sections j ≠ some n) → k = m + 1) ∧
      ((∀ j, j < size → name_at sections j ≠ some n) → k = size)) ∧
    (∀ (name : Option CString) (st st1 : LoopState),
      loop_cond size st = true → loop_body sections name st = .ok st1 →
      0 ≤ (size : Int) - st1.i ∧ (size : Int) - st1.i < (size : Int) - st.i) := by
  refine ⟨?_, fun name st st1 => loop_measure sections size name st st1⟩
  subst hlen
  have hsz : (sections.length : Int) ≤ INT_MAX := by
    unfold INT_MAX
    omega
  obtain ⟨st, hrun, hres⟩ :=
    while_loop_scan sections n hvalid hn hsz sections.length 0 (sections.length + 1)
      (by omega) (by omega)
  have h0 : ((0 : Nat) : Int) = 0 := rfl
  rw [h0] at hrun
  have hits := loop_iterations_of_run sections sections.length (some n)
    (sections.length + 1) { index := -1, i := 0 } st hrun
  obtain ⟨_, _, hany⟩ := while_loop_fuel sections sections.length (some n)
    (sections.length + 1) { index := -1, i := 0 } st hrun
  have hi0 : ({ index := -1, i := 0 } : LoopState).i = 0 := rfl
  rw [hi0] at hits hany
  refine ⟨st, (st.i - 0).toNat, ?_, hits, ?_, ?_, ?_⟩
  · intro fuel hfuel
    apply hany
    rcases hres with ⟨_, h2, _⟩ | ⟨k, _, h2, _, h4, _, _⟩ <;> omega
  · rcases hres with ⟨_, h2, _⟩ | ⟨k, _, h2, _, h4, _, _⟩ <;> omega
  · intro m hm hmatch hfirst
    rcases hres with ⟨_, _, h3⟩ | ⟨k, _, h2, _, h4, h5, h6⟩
    · exact absurd hmatch (h3 m (Nat.zero_le m) hm)
    · have hle : k ≤ m := by
        by_contra hgt
        exact h6 m (Nat.zero_le m) (by omega) hmatch
      have hge : m ≤ k := by
        by_contra hlt
        exact hfirst k (by omega) h5
      omega
  · intro hnone
    rcases hres with ⟨_, h2, _⟩ | ⟨k, _, h2, _, _, h5, _⟩
    · omega
    · exact absurd h5 (hnone k h2)

/-- Witness of C12 on `[Null, Strtab("shstrtab"), Symtab("symtab")]`: the body runs
twice for "shstrtab", found at index 1, and three times for "missing". -/
theorem while_loop_terminates_witness :
    loop_iterations table_scenario 3 (some str_shstrtab) 4 { index := -1, i := 0 } = .ok 2 ∧
    loop_iterations table_scenario 3 (some str_missing) 4 { index := -1, i := 0 } = .ok 3 ∧
    loop_iterations table_scenario 3 (some str_missing) 3 { index := -1, i := 0 }
      = .error .out_of_fuel ∧
    ∃ (st : LoopState) (k : Nat),
      (∀ fuel, 3 + 1 ≤ fuel →
        while_loop table_scenario 3 (some str_shstrtab) fuel { index := -1, i := 0 }
          = .ok st) ∧
      loop_iterations table_scenario 3 (some str_shstrtab) (3 + 1) { index := -1, i := 0 }
        = .ok k ∧
      k ≤ 3 ∧
      (∀ m, m < 3 → name_at table_scenario m = some str_shstrtab →
        (∀ j, j < m → name_at table_scenario j ≠ some str_shstrtab) → k = m + 1) ∧
      ((∀ j, j < 3 → name_at table_scenario j ≠ some str_shstrtab) → k = 3) :=
  ⟨by decide, by decide, by decide,
    (while_loop_terminates table_scenario 3 str_shstrtab rfl (by decide)
      valid_table_scenario (by decide)).1⟩

/-! ## Runs on a concatenation -/

theorem loop_body_of (sections : List (Option elf_section_header)) (n : CString)
    (st : LoopState) (sect : elf_section_header) (sn : CString) (h0 : 0 ≤ st.i)
    (hget : sections[st.i.toNat]? = some (some sect))
    (hname : get_section_name sect = some sn) (hi : st.i + 1 ≤ INT_MAX) :
    loop_body sections (some n) st =
      .ok { index := if strcmp sn n = 0 then st.i else st.index, i := st.i + 1 } := by
  unfold loop_body
  have hneg : ¬ (st.i < 0) := by omega
  simp only [hneg, if_false, hget, hname, hi, if_true]

theorem while_loop_miss_append (s t : List (Option elf_section_header))
    (name : Option CString) (size2 : Nat) (hsz : s.length ≤ size2) :
    ∀ (fuel : Nat) (st st1 : LoopState),
      while_loop s s.length name fuel st = .ok st1 →
      st.index = -1 → st1.index = -1 → 0 ≤ st.i → st.i ≤ (s.length : Int) →
      ∀ g, while_loop (s ++ t) size2 name (g + ((s.length : Int) - st.i).toNat) st =
        while_loop (s ++ t) size2 name g { index := -1, i := (s.length : Int) } := by
  intro fuel
  induction fuel with
  | zero =>
    intro st st1 h
    simp [while_loop] at h
  | succ f ih =>
    intro st st1 h hidx hidx1 h0 hle g
    rw [while_loop] at h
    split at h
    · rename_i hc
      split at h
      · rename_i st2 hb
        obtain ⟨_, hlt⟩ := loop_cond_true s.length st hc
        obtain ⟨_, hmax, hi2, sect, sn, n, _, _, _, hidx2⟩ := loop_body_ok s name st st2 hb
        have hmod : st.i % UINT_RANGE = st.i := by
          unfold UINT_RANGE
          unfold INT_MAX at hmax
          omega
        rw [hmod] at hlt
        have hst2 : st2.index = -1 := by
          by_contra hne2
          cases f with
          | zero => simp [while_loop] at h
          | succ f1 =>
            rw [while_loop_of_index s s.length name f1 st2 hne2] at h
            cases h
            exact hne2 hidx1
        have hc2 : loop_cond size2 st = true := by
          unfold loop_cond
          have hlt2 : st.i.toNat < size2 := by omega
          simp [hidx, hmod, hlt2]
        have hb2 : loop_body (s ++ t) name st = .ok st2 := by
          rw [loop_body_congr s (s ++ t) name st (List.getElem?_append_left hlt)]
          exact hb
        have hfuel : g + ((s.length : Int) - st.i).toNat
            = (g + ((s.length : Int) - st2.i).toNat) + 1 := by omega
        rw [hfuel, while_loop]
        simp only [hc2, if_true, hb2]
        exact ih st2 st1 h hst2 hidx1 (by omega) (by omega) g
      · cases h
    · rename_i hc
      cases h
      rcases loop_cond_false s.length st hc with hne | hge
      · exact absurd hidx hne
      · have hi : st.i = (s.length : Int) := by
          unfold UINT_RANGE at hge
          omega
        have hst : st = { index := -1, i := (s.length : Int) } := by
          cases st
          simp only at hidx hi
          rw [hidx, hi]
        have hz : ((s.length : Int) - st.i).toNat = 0 := by omega
        rw [hz, hst]
        rfl

theorem while_loop_shift (s t : List (Option elf_section_header))
    (name : Option CString) (hsum : s.length + t.length ≤ 2147483647) :
    ∀ (fuel : Nat) (st st1 : LoopState),
      while_loop t t.length name fuel st = .ok st1 →
      st.index = -1 → 0 ≤ st.i → st.i ≤ (t.length : Int) →
      while_loop (s ++ t) (s.length + t.length) name fuel
          { index := -1, i := (s.length : Int) + st.i } =
        .ok { index := if st1.index = -1 then -1 else (s.length : Int) + st1.index,
              i := (s.length : Int) + st1.i } := by
  intro fuel
  induction fuel with
  | zero =>
    intro st st1 h
    simp [while_loop] at h
  | succ f ih =>
    intro st st1 h hidx h0 hle
    rw [while_loop] at h
    rw [while_loop]
    split at h
    · rename_i hc
      split at h
      · rename_i st2 hb
        obtain ⟨_, hlt⟩ := loop_cond_true t.length st hc
        obtain ⟨_, hmax, hi2, sect, sn, n, hget, hname, hn, hidx2⟩ :=
          loop_body_ok t name st st2 hb
        have hmod : st.i % UINT_RANGE = st.i := by
          unfold UINT_RANGE
          unfold INT_MAX at hmax
          omega
        rw [hmod] at hlt
        have hc2 : loop_cond (s.length + t.length)
            { index := -1, i := (s.length : Int) + st.i } = true := by
          unfold loop_cond
          have hmod2 : ((s.length : Int) + st.i) % UINT_RANGE = (s.length : Int) + st.i := by
            unfold UINT_RANGE
            omega
          have hlt2 : ((s.length : Int) + st.i).toNat < s.length + t.length := by omega
          simp [hmod2, hlt2]
        have hnat : ((s.length : Int) + st.i).toNat = s.length + st.i.toNat := by omega
        have hget2 : (s ++ t)[((s.length : Int) + st.i).toNat]? = some (some sect) := by
          rw [hnat, List.getElem?_append_right (by omega)]
          have hsub : s.length + st.i.toNat - s.length = st.i.toNat := by omega
          rw [hsub]
          exact hget
        subst hn
        have hb2 := loop_body_of (s ++ t) n { index := -1, i := (s.length : Int) + st.i }
          sect sn (by show 0 ≤ (s.length : Int) + st.i; omega) hget2 hname
          (by show (s.length : Int) + st.i + 1 ≤ INT_MAX; unfold INT_MAX; omega)
        simp only [hc2, if_true, hb2]
        by_cases hz : strcmp sn n = 0
        · rw [if_pos hz] at hidx2
          simp only [if_pos hz]
          have hne2 : st2.index ≠ -1 := by omega
          cases f with
          | zero => simp [while_loop] at h
          | succ f1 =>
            rw [while_loop_of_index t t.length (some n) f1 st2 hne2] at h
            cases h
            rw [while_loop_of_index (s ++ t) (s.length + t.length) (some n) f1 _
              (by show (s.length : Int) + st.i ≠ -1; omega)]
            rw [if_neg hne2, hidx2, hi2]
            have hassoc : (s.length : Int) + st.i + 1 = (s.length : Int) + (st.i + 1) := by
              omega
            rw [hassoc]
        · rw [if_neg hz, hidx] at hidx2
          simp only [if_neg hz]
          have hrec := ih st2 st1 h hidx2 (by omega) (by omega)
          have hassoc : (s.length : Int) + st.i + 1 = (s.length : Int) + st2.i := by omega
          rw [hassoc]
          exact hrec
      · cases h
    · rename_i hc
      cases h
      rcases loop_cond_false t.length st hc with hne | hge
      · exact absurd hidx hne
      · have hi : st.i = (t.length : Int) := by
          unfold UINT_RANGE at hge
          omega
        have hc2 : loop_cond (s.length + t.length)
            { index := -1, i := (s.length : Int) + st.i } = false := by
          unfold loop_cond
          have hmod2 : ((s.length : Int) + st.i) % UINT_RANGE = (s.length : Int) + st.i := by
            unfold UINT_RANGE
            omega
          have hge2 : ¬ ((s.length : Int) + st.i).toNat < s.length + t.length := by omega
          simp [hmod2, hge2]
        simp [hc2, hidx]

/-- C13. Concatenation on a miss: for tables `S` and `T` of combined length at most
`2^31 - 1`, when `find_section_index_by_name` returns `-1` on `S` and returns `j` on
`T`, it returns on `S ++ T` the value `-1` when `j` is `-1`, and `len(S) + j`
otherwise. -/
theorem find_section_index_by_name_append_miss
    (s t : List (Option elf_section_header)) (name : Option CString) (j : Int)
    (hsum : s.length + t.length ≤ 2147483647)
    (hs : find_section_index_by_name s s.length name = .ok (-1))
    (ht : find_section_index_by_name t t.length name = .ok j) :
    find_section_index_by_name (s ++ t) (s ++ t).length name =
      .ok (if j = -1 then -1 else (s.length : Int) + j) := by
  unfold find_section_index_by_name at hs ht
  split at hs
  · rename_i sts hruns
    have hidxs : sts.index = -1 := Except.ok.inj hs
    split at ht
    · rename_i stt hrunt
      have hj : stt.index = j := Except.ok.inj ht
      subst hj
      have hmiss := while_loop_miss_append s t name (s.length + t.length) (by omega)
        (s.length + 1) { index := -1, i := 0 } sts hruns rfl hidxs (le_refl 0)
        (by show (0 : Int) ≤ (s.length : Int); omega) (t.length + 1)
      have hshift := while_loop_shift s t name hsum (t.length + 1)
        { index := -1, i := 0 } stt hrunt rfl (le_refl 0)
        (by show (0 : Int) ≤ (t.length : Int); omega)
      have hi0 : ({ index := -1, i := 0 } : LoopState).i = 0 := rfl
      rw [hi0] at hmiss hshift
      have hfuel : t.length + 1 + ((s.length : Int) - 0).toNat = s.length + t.length + 1 := by
        omega
      have hadd : (s.length : Int) + 0 = (s.length : Int) := by omega
      rw [hfuel] at hmiss
      rw [hadd] at hshift
      unfold find_section_index_by_name
      rw [List.length_append, hmiss, hshift]
    · cases ht
  · cases hs

/-- Witness of C13: "symtab" is missed in `[Progbits("x"), Progbits("x")]`, found at
index 2 of `[Null, Strtab("shstrtab"), Symtab("symtab")]`, and so at index 4 of the
concatenation; "missing" is missed in both and in the concatenation. -/
theorem find_section_index_by_name_append_miss_witness :
    find_section_index_by_name (table_dup ++ table_scenario) 5 (some str_symtab) = .ok 4 ∧
    find_section_index_by_name (table_dup ++ table_scenario) 5 (some str_missing)
      = .ok (-1) :=
  ⟨(find_section_index_by_name_append_miss table_dup table_scenario (some str_symtab) 2
      (by decide) (by decide) (by decide)).trans (by decide),
    (find_section_index_by_name_append_miss table_dup table_scenario (some str_missing) (-1)
      (by decide) (by decide) (by decide)).trans (by decide)⟩

/-! ## The counter `i` and the range of `int` -/

theorem loop_body_overflow (sections : List (Option elf_section_header))
    (name : Option CString) (st : LoopState)
    (h : loop_body sections name st = .error .signed_overflow) :
    ¬ (st.i + 1 ≤ INT_MAX) := by
  unfold loop_body at h
  split at h
  · cases h
  · split at h
    · cases h
    · cases h
    · split at h
      · simp only at h
        split at h
        · cases h
        · assumption
      · cases h

theorem loop_cond_exact (size : Nat) (st : LoopState) (h0 : 0 ≤ st.i)
    (hmax : st.i ≤ INT_MAX) :
    loop_cond size st = (decide (st.index = -1) && decide (st.i < (size : Int))) := by
  unfold loop_cond
  have hmod : st.i % UINT_RANGE = st.i := by
    unfold UINT_RANGE
    unfold INT_MAX at hmax
    omega
  rw [hmod]
  have hiff : st.i.toNat < size ↔ st.i < (size : Int) := by omega
  by_cases hidx : st.index = -1 <;> by_cases hlt : st.i < (size : Int) <;>
    simp [hidx, hlt, hiff]

theorem state_after_inv (sections : List (Option elf_section_header)) (size : Nat)
    (name : Option CString) :
    ∀ (k : Nat) (st : LoopState), state_after sections size name k = .ok st →
      0 ≤ st.i ∧ st.i ≤ (size : Int) ∧ st.i ≤ INT_MAX ∧ (st.index = -1 ∨ 0 ≤ st.index) := by
  intro k
  induction k with
  | zero =>
    intro st h
    cases h
    exact ⟨le_refl 0, by show (0 : Int) ≤ (size : Int); omega, by decide, Or.inl rfl⟩
  | succ k ih =>
    intro st h
    rw [state_after] at h
    split at h
    · rename_i st0 h0
      obtain ⟨a, b, c, d⟩ := ih st0 h0
      split at h
      · rename_i hc
        obtain ⟨hidx0, hlt⟩ := loop_cond_true size st0 hc
        obtain ⟨_, hmax, hi, sect, sn, n, _, _, _, hidx⟩ :=
          loop_body_ok sections name st0 st h
        have hmod : st0.i % UINT_RANGE = st0.i := by
          unfold UINT_RANGE
          unfold INT_MAX at c
          omega
        rw [hmod] at hlt
        refine ⟨by omega, by omega, by omega, ?_⟩
        by_cases hz : strcmp sn n = 0
        · rw [if_pos hz] at hidx
          exact Or.inr (by omega)
        · rw [if_neg hz] at hidx
          exact Or.inl (by omega)
      · cases h
        exact ⟨a, b, c, d⟩
    · cases h

theorem state_after_run (sections : List (Option elf_section_header)) (size : Nat)
    (name : Option CString) :
    ∀ (k : Nat) (st : LoopState), state_after sections size name k = .ok st →
      ∀ fuel, while_loop sections size name (fuel + 1 + k) { index := -1, i := 0 } =
        while_loop sections size name (fuel + 1) st := by
  intro k
  induction k with
  | zero =>
    intro st h fuel
    cases h
    rfl
  | succ k ih =>
    intro st h fuel
    rw [state_after] at h
    split at h
    · rename_i st0 h0
      have hrec := ih st0 h0 (fuel + 1)
      have hfuel : fuel + 1 + (k + 1) = fuel + 1 + 1 + k := by omega
      rw [hfuel, hrec]
      split at h
      · rename_i hc
        rw [while_loop]
        simp only [hc, if_true, h]
      · rename_i hc
        cases h
        rw [while_loop, while_loop]
        simp [hc]
    · cases h

theorem state_after_no_overflow (sections : List (Option elf_section_header)) (size : Nat)
    (name : Option CString) (hsize : size ≤ 2147483647) :
    ∀ k : Nat, state_after sections size name k ≠ .error .signed_overflow := by
  intro k
  induction k with
  | zero =>
    intro h
    cases h
  | succ k ih =>
    intro h
    rw [state_after] at h
    split at h
    · rename_i st0 h0
      obtain ⟨a, _, c, _⟩ := state_after_inv sections size name k st0 h0
      split at h
      · rename_i hc
        obtain ⟨_, hlt⟩ := loop_cond_true size st0 hc
        have hmod : st0.i % UINT_RANGE = st0.i := by
          unfold UINT_RANGE
          unfold INT_MAX at c
          omega
        rw [hmod] at hlt
        have hov := loop_body_overflow sections name st0 h
        unfold INT_MAX at hov
        omega
      · cases h
    · rename_i f hf
      cases h
      exact ih hf

theorem while_loop_no_overflow (sections : List (Option elf_section_header)) (size : Nat)
    (name : Option CString) (hsize : size ≤ 2147483647) :
    ∀ (fuel : Nat) (st : LoopState), 0 ≤ st.i → st.i ≤ INT_MAX →
      while_loop sections size name fuel st ≠ .error .signed_overflow := by
  intro fuel
  induction fuel with
  | zero =>
    intro st _ _ h
    simp [while_loop] at h
  | succ f ih =>
    intro st h0 hmax h
    rw [while_loop] at h
    split at h
    · rename_i hc
      obtain ⟨_, hlt⟩ := loop_cond_true size st hc
      have hmod : st.i % UINT_RANGE = st.i := by
        unfold UINT_RANGE
        unfold INT_MAX at hmax
        omega
      rw [hmod] at hlt
      split at h
      · rename_i st2 hb
        obtain ⟨_, hmax2, hi2, _⟩ := loop_body_ok sections name st st2 hb
        exact ih st2 (by omega) (by omega) h
      · rename_i f1 hf1
        cases h
        have hov := loop_body_overflow sections name st hf1
        unfold INT_MAX at hov
        omega
    · cases h

theorem name_at_some (sections : List (Option elf_section_header)) (j : Nat)
    (sn : CString) (h : name_at sections j = some sn) :
    ∃ sect, sections[j]? = some (some sect) ∧ get_section_name sect = some sn := by
  unfold name_at at h
  split at h
  · rename_i sect hget
    exact ⟨sect, hget, h⟩
  · cases h

theorem while_loop_overflow (sections : List (Option elf_section_header)) (size : Nat)
    (n : CString) (hsize : 2147483647 < size)
    (hno : ∀ j, j ≤ 2147483647 → ∃ sn, name_at sections j = some sn ∧ strcmp sn n ≠ 0) :
    ∀ (d i fuel : Nat), i + d = 2147483647 → d < fuel →
      while_loop sections size (some n) fuel { index := -1, i := (i : Int) }
        = .error .signed_overflow := by
  intro d
  induction d with
  | zero =>
    intro i fuel hi hf
    obtain ⟨f, rfl⟩ : ∃ f, fuel = f + 1 := ⟨fuel - 1, by omega⟩
    have hc : loop_cond size { index := -1, i := (i : Int) } = true := by
      rw [loop_cond_scanning _ _ (by unfold UINT_RANGE; omega)]
      simp
      omega
    obtain ⟨sn, hsn, _⟩ := hno i (by omega)
    obtain ⟨sect, hget, hname⟩ := name_at_some sections i sn hsn
    have hov : ¬ ((i : Int) + 1 ≤ INT_MAX) := by
      unfold INT_MAX
      omega
    have h0 : ¬ ((i : Int) < 0) := by omega
    have hb : loop_body sections (some n) { index := -1, i := (i : Int) }
        = .error .signed_overflow := by
      unfold loop_body
      simp only [h0, if_false, Int.toNat_ofNat, hget, hname, hov]
    rw [while_loop]
    simp only [hc, if_true, hb]
  | succ d ih =>
    intro i fuel hi hf
    obtain ⟨f, rfl⟩ : ∃ f, fuel = f + 1 := ⟨fuel - 1, by omega⟩
    have hc : loop_cond size { index := -1, i := (i : Int) } = true := by
      rw [loop_cond_scanning _ _ (by unfold UINT_RANGE; omega)]
      simp
      omega
    obtain ⟨sn, hsn, hz⟩ := hno i (by omega)
    obtain ⟨sect, hget, hname⟩ := name_at_some sections i sn hsn
    have hb := loop_body_at sections n i (-1) sect sn hget hname
      (by unfold INT_MAX; omega)
    rw [if_neg hz] at hb
    rw [while_loop]
    simp only [hc, if_true, hb]
    have hcast : ((i : Int) + 1) = ((i + 1 : Nat) : Int) := by push_cast; rfl
    rw [hcast]
    exact ih (i + 1) f (by omega) (by omega)

theorem valid_table_overflow : valid_table table_overflow := by
  intro e he
  unfold table_overflow at he
  exact ⟨Null, List.eq_of_mem_replicate he, valid_header_Null⟩

theorem table_overflow_no_match :
    ∀ j, j ≤ 2147483647 → ∃ sn, name_at table_overflow j = some sn ∧ strcmp sn str_x ≠ 0 := by
  intro j hj
  refine ⟨[], ?_, by decide⟩
  have hget : table_overflow[j]? = some (some Null) := by
    unfold table_overflow
    exact List.getElem?_replicate_of_lt (by omega)
  rw [name_at_of_get table_overflow j Null hget]
  rfl

theorem find_overflow (sections : List (Option elf_section_header)) (size : Nat)
    (n : CString) (hsize : 2147483647 < size)
    (hno : ∀ j, j ≤ 2147483647 → ∃ sn, name_at sections j = some sn ∧ strcmp sn n ≠ 0) :
    find_section_index_by_name sections size (some n) = .error .signed_overflow := by
  unfold find_section_index_by_name
  have h := while_loop_overflow sections size n hsize hno 2147483647 0 (size + 1)
    (by omega) (by omega)
  have h0 : ((0 : Nat) : Int) = 0 := rfl
  rw [h0] at h
  rw [h]

/-- C14. No signed overflow of the counter under the size bound: with `size` at most
`2^31 - 1`, every state the loop reaches (after any number `k` of iterations) has
`0 ≤ i ≤ size` and `i ≤ INT_MAX`; there the condition, which compares `i` converted to
`unsigned int`, is `index == -1 && i < size` over the integers; `index` is `-1` or
non-negative; an iteration to come increments `i` within the range of `int`; and
neither the states nor the function end in a signed overflow. The bound is needed:
with `size` above `2^31 - 1` and no match among the first `2^31` entries the increment
overflows, as on the table of `2^31` Null headers queried with "x". -/
theorem loop_counter_no_overflow :
    (∀ (sections : List (Option elf_section_header)) (size : Nat) (name : Option CString),
      size ≤ 2147483647 →
      (∀ (k : Nat) (st : LoopState), state_after sections size name k = .ok st →
        0 ≤ st.i ∧ st.i ≤ (size : Int) ∧ st.i ≤ INT_MAX ∧
        loop_cond size st = (decide (st.index = -1) && decide (st.i < (size : Int))) ∧
        (st.index = -1 ∨ 0 ≤ st.index) ∧
        (loop_cond size st = true → st.i + 1 ≤ INT_MAX) ∧
        (∀ fuel, while_loop sections size name (fuel + 1 + k) { index := -1, i := 0 } =
          while_loop sections size name (fuel + 1) st)) ∧
      (∀ k : Nat, state_after sections size name k ≠ .error .signed_overflow) ∧
      find_section_index_by_name sections size name ≠ .error .signed_overflow) ∧
    (∀ (sections : List (Option elf_section_header)) (size : Nat) (n : CString),
      2147483647 < size →
      (∀ j, j ≤ 2147483647 → ∃ sn, name_at sections j = some sn ∧ strcmp sn n ≠ 0) →
      find_section_index_by_name sections size (some n) = .error .signed_overflow) ∧
    (table_overflow.length = 2147483648 ∧ valid_table table_overflow ∧
      find_section_index_by_name table_overflow 2147483648 (some str_x)
        = .error .signed_overflow) := by
  refine ⟨?_, find_overflow, ?_⟩
  · intro sections size name hsize
    refine ⟨?_, state_after_no_overflow sections size name hsize, ?_⟩
    · intro k st hst
      obtain ⟨a, b, c, d⟩ := state_after_inv sections size name k st hst
      refine ⟨a, b, c, loop_cond_exact size st a c, d, ?_,
        state_after_run sections size name k st hst⟩
      intro hc
      obtain ⟨_, hlt⟩ := loop_cond_true size st hc
      have hmod : st.i % UINT_RANGE = st.i := by
        unfold UINT_RANGE
        unfold INT_MAX at c
        omega
      rw [hmod] at hlt
      unfold INT_MAX
      omega
    · unfold find_section_index_by_name
      have h := while_loop_no_overflow sections size name hsize (size + 1)
        { index := -1, i := 0 } (le_refl 0) (by decide)
      split
      · intro h1
        cases h1
      · rename_i f hf
        intro h1
        cases h1
        exact h hf
  · refine ⟨?_, valid_table_overflow, ?_⟩
    · unfold table_overflow
      exact List.length_replicate _ _
    · exact find_overflow table_overflow 2147483648 str_x (by omega) table_overflow_no_match

/-- Witness of C14 on `[Null, Strtab("shstrtab"), Symtab("symtab")]` queried with
"symtab": after two iterations `index` is still `-1` and `i` is 2, after three the
entry at index 2 is recorded and `i` is 3. -/
theorem loop_counter_no_overflow_witness :
    state_after table_scenario 3 (some str_symtab) 2 = .ok { index := -1, i := 2 } ∧
    state_after table_scenario 3 (some str_symtab) 3 = .ok { index := 2, i := 3 } ∧
    (0 : Int) ≤ 2 ∧ (2 : Int) ≤ ((3 : Nat) : Int) ∧ (2 : Int) ≤ INT_MAX ∧
    find_section_index_by_name table_scenario 3 (some str_symtab)
      ≠ .error .signed_overflow :=
  have h := loop_counter_no_overflow.1 table_scenario 3 (some str_symtab) (by decide)
  have h2 := h.1 2 { index := -1, i := 2 } (by decide)
  ⟨by decide, by decide, h2.1, h2.2.1, h2.2.2.1, h.2.2⟩

/-- C15. An unhandled tag yields a null name: for a header whose tag is none of
`S_NULL`, `S_PROGBITS`, `S_RELA`, `S_NOBITS`, `S_SYMTAB`, `S_STRTAB`,
`get_section_name` returns `NULL`, whatever its payloads hold; and when the five
stored names are non-null, the result is non-null exactly for the six handled tags. -/
theorem get_section_name_unhandled (v : elf_section_header) :
    (∀ raw, v.type = .other raw → get_section_name v = none) ∧
    (v.data.s_progbits.section_name ≠ none → v.data.s_rela.section_name ≠ none →
      v.data.s_nobits.section_name ≠ none → v.data.s_symtab.section_name ≠ none →
      v.data.s_strtab.section_name ≠ none →
      (get_section_name v ≠ none ↔
        v.type = .S_NULL ∨ v.type = .S_PROGBITS ∨ v.type = .S_RELA ∨ v.type = .S_NOBITS ∨
          v.type = .S_SYMTAB ∨ v.type = .S_STRTAB)) := by
  constructor
  · intro raw h
    unfold get_section_name
    rw [h]
  · intro h1 h2 h3 h4 h5
    unfold get_section_name
    cases hv : v.type <;> simp [h1, h2, h3, h4, h5]

/-- Witness of C15: with the five stored names present, the tag `other 7` projects to
`NULL` and the tag `S_RELA` to a string. -/
theorem get_section_name_unhandled_witness :
    get_section_name { type := .other 7, data := data_five } = none ∧
    get_section_name { type := .S_RELA, data := data_five } ≠ none :=
  ⟨(get_section_name_unhandled { type := .other 7, data := data_five }).1 7 rfl,
    ((get_section_name_unhandled { type := .S_RELA, data := data_five }).2
      (by decide) (by decide) (by decide) (by decide) (by decide)).mpr
      (Or.inr (Or.inr (Or.inl rfl)))⟩

/-! ## The empty query -/

theorem while_loop_to_null (sections : List (Option elf_section_header)) (size k : Nat)
    (hk : k < size) (hmax : k < 2147483647)
    (hbefore : ∀ j, j < k → ∃ sn, name_at sections j = some sn ∧ strcmp sn [] ≠ 0)
    (hnull : ∃ sect, sections[k]? = some (some sect) ∧ sect.type = .S_NULL) :
    ∀ (d i fuel : Nat), i + d = k → d + 1 < fuel →
      while_loop sections size (some []) fuel { index := -1, i := (i : Int) }
        = .ok { index := (k : Int), i := (k : Int) + 1 } := by
  intro d
  induction d with
  | zero =>
    intro i fuel hi hf
    obtain ⟨f, rfl⟩ : ∃ f, fuel = f + 1 + 1 := ⟨fuel - 2, by omega⟩
    have hik : i = k := by omega
    subst hik
    have hc : loop_cond size { index := -1, i := (i : Int) } = true := by
      rw [loop_cond_scanning _ _ (by unfold UINT_RANGE; omega)]
      simp [hk]
    obtain ⟨sect, hget, htype⟩ := hnull
    have hname : get_section_name sect = some [] := by
      unfold get_section_name
      rw [htype]
    have hb := loop_body_at sections [] i (-1) sect [] hget hname
      (by unfold INT_MAX; omega)
    have hz : strcmp [] [] = 0 := rfl
    rw [if_pos hz] at hb
    rw [while_loop]
    simp only [hc, if_true, hb]
    rw [while_loop]
    simp [loop_cond_found]
  | succ d ih =>
    intro i fuel hi hf
    obtain ⟨f, rfl⟩ : ∃ f, fuel = f + 1 := ⟨fuel - 1, by omega⟩
    have hc : loop_cond size { index := -1, i := (i : Int) } = true := by
      rw [loop_cond_scanning _ _ (by unfold UINT_RANGE; omega)]
      simp
      omega
    obtain ⟨sn, hsn, hz⟩ := hbefore i (by omega)
    obtain ⟨sect, hget, hname⟩ := name_at_some sections i sn hsn
    have hb := loop_body_at sections [] i (-1) sect sn hget hname
      (by unfold INT_MAX; omega)
    rw [if_neg hz] at hb
    rw [while_loop]
    simp only [hc, if_true, hb]
    have hcast : ((i : Int) + 1) = ((i + 1 : Nat) : Int) := by push_cast; rfl
    rw [hcast]
    exact ih (i + 1) f (by omega) (by omega)

theorem find_to_null (sections : List (Option elf_section_header)) (size k : Nat)
    (hk : k < size) (hmax : k < 2147483647)
    (hbefore : ∀ j, j < k → ∃ sn, name_at sections j = some sn ∧ strcmp sn [] ≠ 0)
    (hnull : ∃ sect, sections[k]? = some (some sect) ∧ sect.type = .S_NULL) :
    find_section_index_by_name sections size (some []) = .ok (k : Int) := by
  unfold find_section_index_by_name
  have h := while_loop_to_null sections size k hk hmax hbefore hnull k 0 (size + 1)
    (by omega) (by omega)
  have h0 : ((0 : Nat) : Int) = 0 := rfl
  rw [h0] at h
  rw [h]

theorem nul_free_nil : nul_free [] := by
  intro b hb
  cases hb

theorem valid_table_null_second : valid_table table_null_second :=
  valid_table_cons _ _ (valid_header_Progbits str_x (by decide))
    (valid_table_cons _ _ valid_header_Null
      (valid_table_cons _ _ valid_header_Null valid_table_nil))

theorem valid_table_null_late : valid_table table_null_late := by
  intro e he
  unfold table_null_late at he
  rcases List.mem_append.mp he with h1 | h2
  · exact ⟨Progbits str_x, List.eq_of_mem_replicate h1,
      valid_header_Progbits str_x (by decide)⟩
  · exact ⟨Null, List.mem_singleton.mp h2, valid_header_Null⟩

theorem table_null_late_get (j : Nat) (hj : j < 2147483648) :
    table_null_late[j]? = some (some (Progbits str_x)) := by
  unfold table_null_late
  rw [List.getElem?_append_left (by rw [List.length_replicate]; exact hj)]
  exact List.getElem?_replicate_of_lt hj

theorem table_null_late_name (j : Nat) (hj : j < 2147483648) :
    name_at table_null_late j = some str_x := by
  rw [name_at_of_get table_null_late j (Progbits str_x) (table_null_late_get j hj)]
  rfl

/-- C8, as stated, fails: in the table of `2^31` headers `Progbits("x")` followed by a
Null header, of `2^31 + 1` valid headers, entry `2^31` has tag `S_NULL` and no entry
before it projects to the empty name, yet the query "" does not return `2^31`: the
counter `i` cannot pass `2^31 - 1`. -/
theorem find_section_index_by_name_empty_query_counterexample :
    table_null_late.length = 2147483649 ∧ valid_table table_null_late ∧
    (∃ sect, table_null_late[2147483648]? = some (some sect) ∧ sect.type = .S_NULL) ∧
    (∀ j, j < 2147483648 → name_at table_null_late j ≠ some []) ∧
    find_section_index_by_name table_null_late 2147483649 (some [])
      = .error .signed_overflow ∧
    find_section_index_by_name table_null_late 2147483649 (some [])
      ≠ .ok ((2147483648 : Nat) : Int) := by
  have hover : find_section_index_by_name table_null_late 2147483649 (some [])
      = .error .signed_overflow := by
    apply find_overflow table_null_late 2147483649 [] (by omega)
    intro j hj
    exact ⟨str_x, table_null_late_name j (by omega), by decide⟩
  refine ⟨?_, valid_table_null_late, ⟨Null, ?_, rfl⟩, ?_, hover, ?_⟩
  · unfold table_null_late
    rw [List.length_append, List.length_replicate]
    rfl
  · unfold table_null_late
    rw [List.getElem?_append_right (by rw [List.length_replicate]),
      List.length_replicate, Nat.sub_self]
    rfl
  · intro j hj
    rw [table_null_late_name j hj]
    decide
  · rw [hover]
    intro h
    cases h

/-- C8, amended. The empty query matches a Null entry below `2^31 - 1`: when entry `k` of
a table has tag `S_NULL`, `k < size` and `k ≤ 2^31 - 2`, the query "" returns `k`,
both on a table of `size` valid headers in which no entry before `k` projects to the
empty name, and on any table whose entries before `k` project to names that `strcmp`
finds different from "" (what follows entry `k` is then not read). On `[Null]`, and on
every table whose first entry is a Null header (with `size` at least 1), the query ""
returns `0`. -/
theorem find_section_index_by_name_empty_query :
    (∀ (sections : List (Option elf_section_header)) (size k : Nat),
      sections.length = size → valid_table sections → k < size → k < 2147483647 →
      (∃ sect, sections[k]? = some (some sect) ∧ sect.type = .S_NULL) →
      (∀ j, j < k → name_at sections j ≠ some []) →
      find_section_index_by_name sections size (some []) = .ok (k : Int)) ∧
    (∀ (sections : List (Option elf_section_header)) (size k : Nat),
      k < size → k < 2147483647 →
      (∃ sect, sections[k]? = some (some sect) ∧ sect.type = .S_NULL) →
      (∀ j, j < k → ∃ sn, name_at sections j = some sn ∧ strcmp sn [] ≠ 0) →
      find_section_index_by_name sections size (some []) = .ok (k : Int)) ∧
    find_section_index_by_name [some Null] 1 (some []) = .ok 0 ∧
    (∀ (d : section_data) (rest : List (Option elf_section_header)) (size : Nat),
      0 < size →
      find_section_index_by_name (some { type := .S_NULL, data := d } :: rest) size
        (some []) = .ok 0) := by
  refine ⟨?_, ?_, by decide, find_first_entry_null⟩
  · intro sections size k hlen hvalid hk hmax hnull hbefore
    apply find_to_null sections size k hk hmax ?_ hnull
    intro j hj
    obtain ⟨sn, hsn, hnul⟩ := valid_table_name_at sections hvalid j (by omega)
    refine ⟨sn, hsn, ?_⟩
    intro hz
    have hempty : sn = [] := (strcmp_eq_zero_iff sn [] hnul nul_free_nil).mp hz
    rw [hempty] at hsn
    exact hbefore j hj hsn
  · intro sections size k hk hmax hnull hbefore
    exact find_to_null sections size k hk hmax hbefore hnull

/-- Witness of C8 on `[Progbits("x"), Null, Null]`: the first Null entry, at index 1,
is the one the empty query finds, with `size` 3 and also with a `size` of 3000000000,
beyond the range of `int`. -/
theorem find_section_index_by_name_empty_query_witness :
    find_section_index_by_name table_null_second 3 (some []) = .ok ((1 : Nat) : Int) ∧
    find_section_index_by_name table_null_second 3000000000 (some [])
      = .ok ((1 : Nat) : Int) :=
  ⟨find_section_index_by_name_empty_query.1 table_null_second 3 1 rfl
      valid_table_null_second (by decide) (by decide) ⟨Null, rfl, rfl⟩
      (by intro j hj; interval_cases j; decide),
    find_section_index_by_name_empty_query.2.1 table_null_second 3000000000 1
      (by decide) (by decide) ⟨Null, rfl, rfl⟩
      (by intro j hj; interval_cases j; exact ⟨str_x, rfl, by decide⟩)⟩

end Elf64
